import Mathlib

/-!
Verification of the coastline bounding and closure engine of the pdf-map
repository (`src/features/coastline_handler.py`, `src/map_dimensions.py`).

The embedding uses exact rationals for coordinates.  Python lists are
embedded as Lean lists; the one place where Python object identity matters
is modelled explicitly:

* `EMPTY_INTERSECTION_MAP.copy()` is a *shallow* dict copy, so every map
  built from it shares the same four per-side list objects.  The clipper
  therefore starts from the current contents of those global lists: the
  embedding threads them as an explicit argument (`globalMap`) through
  `bound_and_sort_complete_coastlines`, whose returned map is also the new
  content of the global lists (Python `list.sort` is in place).
* Inside `join_open_coastlines` the accumulator aliases the list stored in
  `open_coastlines`, so `insert(0, ...)` mutates the stored list: the walk
  state records the alias (`accRef`) and updates the stored list on insert.
* The walker's `current_skipped_intersection_map = EMPTY_INTERSECTION_MAP.copy()`
  again shares the global lists.  When the walked map is the map produced by
  the clipper — which is the case on the repository's only call path — the
  deferred events are appended to the very lists being walked.  The
  `Shared`-suffixed definitions model that call path; the unsuffixed walker
  models a call with an unshared map argument.

Identifiers from `uuid.uuid4()` are modelled by a threaded natural counter:
only freshness of the ids is ever used by the code.
-/

namespace PdfMap

attribute [local semireducible] Rat.add Rat.mul Rat.sub Rat.inv

/-- The four sides of the map boundary, as in `map_dimensions.Side`. -/
inductive Side where
  | TOP
  | RIGHT
  | BOTTOM
  | LEFT
deriving DecidableEq, Repr

/-- Coordinates are `(lon, lat)` pairs, exact rationals in the embedding. -/
abbrev Coord := ℚ × ℚ

/-- A polyline, as the Python `Line = List[Coord]`. -/
abbrev Line := List Coord

/-- The bounding rectangle of `MapDimensions` (only the geographic fields
the coastline engine reads). -/
structure MapDimensions where
  min_lat : ℚ
  min_lon : ℚ
  max_lat : ℚ
  max_lon : ℚ
deriving DecidableEq, Repr

/-- Clockwise-next corner of each side, from `MapDimensions.__init__`:
TOP ↦ top right, RIGHT ↦ bottom right, BOTTOM ↦ bottom left,
LEFT ↦ top left. -/
def side_clockwise_corners (md : MapDimensions) : Side → Coord
  | Side.TOP => (md.max_lon, md.max_lat)
  | Side.RIGHT => (md.max_lon, md.min_lat)
  | Side.BOTTOM => (md.min_lon, md.min_lat)
  | Side.LEFT => (md.min_lon, md.max_lat)

/-- Clockwise traversal order of the sides, `NEXT_SIDE_MAP`. -/
def NEXT_SIDE_MAP : Side → Side
  | Side.TOP => Side.RIGHT
  | Side.RIGHT => Side.BOTTOM
  | Side.BOTTOM => Side.LEFT
  | Side.LEFT => Side.TOP

/-- An intersection of a segment with the boundary (`Intersection`). -/
structure Intersection where
  point : Coord
  is_entering : Bool
  side : Side
deriving DecidableEq, Repr

/-- An intersection tagged with the bounded-coastline id it belongs to
(`IntersectionWithId`); uuid strings become naturals. -/
structure IntersectionWithId where
  point : Coord
  is_entering : Bool
  side : Side
  bounded_coastline_id : Nat
deriving DecidableEq, Repr

/-- The per-side event lists (`IntersectionMap`), a four-field product. -/
structure IntersectionMap where
  top : List IntersectionWithId
  right : List IntersectionWithId
  bottom : List IntersectionWithId
  left : List IntersectionWithId
deriving DecidableEq, Repr

/-- Read one side's event list. -/
def IntersectionMap.get (m : IntersectionMap) : Side → List IntersectionWithId
  | Side.TOP => m.top
  | Side.RIGHT => m.right
  | Side.BOTTOM => m.bottom
  | Side.LEFT => m.left

/-- Replace one side's event list. -/
def IntersectionMap.set (m : IntersectionMap) : Side → List IntersectionWithId → IntersectionMap
  | Side.TOP, l => { m with top := l }
  | Side.RIGHT, l => { m with right := l }
  | Side.BOTTOM, l => { m with bottom := l }
  | Side.LEFT, l => { m with left := l }

/-- Append an event to one side's list (Python `list.append`). -/
def IntersectionMap.push (m : IntersectionMap) (s : Side) (e : IntersectionWithId) : IntersectionMap :=
  m.set s (m.get s ++ [e])

/-- A map with four empty lists: the content `EMPTY_INTERSECTION_MAP` has
in a fresh process. -/
def emptyIntersectionMap : IntersectionMap :=
  { top := [], right := [], bottom := [], left := [] }

/-- All events of a map, in side order. -/
def IntersectionMap.all (m : IntersectionMap) : List IntersectionWithId :=
  m.top ++ m.right ++ m.bottom ++ m.left

/-- The error surface of the engine.  Every `raise ValueError(...)` /
`IndexError` site of the source gets one constructor; the Python messages
are constant strings, so the constructors carry no further data except
where the message interpolates a value. -/
inductive CoastErr where
  /-- `find_segment_intersection_with_boundary`: a crossing segment with no
  accepted candidate. -/
  | MalformedGeometry
  /-- Clipper: accumulator not empty while the segment is outside the map. -/
  | AccumulatorOutside
  /-- Clipper: a bounded coastline exists although the chain never crossed. -/
  | ClosedButBounded
  /-- Clipper merge step: Python `bounded_coastlines_from_complete_coastline[0]`
  on an empty list raises `IndexError`. -/
  | MergeOnEmpty
  /-- `validate_intersection_map`: entering and exiting counts differ.  The
  Python message is one constant string naming no side. -/
  | IncompleteCoastline
  /-- Walker: an event whose id has no coastline in `open_coastlines`. -/
  | NoCoastlineForIntersection (e : IntersectionWithId)
  /-- Walker: entering event met while looking for an exit. -/
  | EnteringWhenLookingForExit
  /-- Walker: `exit_id_to_look_for` is `None` while looking for an exit. -/
  | NoExitIdToLookFor
  /-- Walker: unexpected non-root exit while a nested entrance is pending. -/
  | UnexpectedNestedExit
  /-- Walker: exiting event met while looking for an entrance. -/
  | ExitingWhenLookingForEnter
  /-- Walker initialisation: starting index out of range (`IndexError`) or
  starting id absent from `open_coastlines` (`KeyError`). -/
  | BadStartingPoint
  /-- Walker: `current_intersection_coastline[-1]` on an empty list
  (`IndexError`). -/
  | EmptyCoastline
deriving DecidableEq, Repr

/-- `CoastlineHandler.is_inside_map`: inclusive on the boundary. -/
def is_inside_map (point : Coord) (md : MapDimensions) : Bool :=
  md.min_lon ≤ point.1 && point.1 ≤ md.max_lon &&
  (md.min_lat ≤ point.2 && point.2 ≤ md.max_lat)

/-- Strict interior of the rectangle (used only in theorem statements). -/
def strictlyInside (point : Coord) (md : MapDimensions) : Bool :=
  md.min_lon < point.1 && point.1 < md.max_lon &&
  (md.min_lat < point.2 && point.2 < md.max_lat)

/-- The TOP-side candidate of the crossing computation: tried when the
segment is not horizontal, accepted when `t ∈ [0,1]` and the intersection
longitude lies within the side's extent; entering iff moving down. -/
def topCandidate (p1 p2 : Coord) (md : MapDimensions) : List Intersection :=
  if p1.2 ≠ p2.2 then
    let t := (md.max_lat - p1.2) / (p2.2 - p1.2)
    if 0 ≤ t ∧ t ≤ 1 then
      let lon_intersect := p1.1 + t * (p2.1 - p1.1)
      if md.min_lon ≤ lon_intersect ∧ lon_intersect ≤ md.max_lon then
        [{ point := (lon_intersect, md.max_lat), is_entering := decide (p1.2 > p2.2),
           side := Side.TOP }]
      else []
    else []
  else []

/-- The RIGHT-side candidate: entering iff moving left. -/
def rightCandidate (p1 p2 : Coord) (md : MapDimensions) : List Intersection :=
  if p1.1 ≠ p2.1 then
    let t := (md.max_lon - p1.1) / (p2.1 - p1.1)
    if 0 ≤ t ∧ t ≤ 1 then
      let lat_intersect := p1.2 + t * (p2.2 - p1.2)
      if md.min_lat ≤ lat_intersect ∧ lat_intersect ≤ md.max_lat then
        [{ point := (md.max_lon, lat_intersect), is_entering := decide (p1.1 > p2.1),
           side := Side.RIGHT }]
      else []
    else []
  else []

/-- The BOTTOM-side candidate: entering iff moving up. -/
def bottomCandidate (p1 p2 : Coord) (md : MapDimensions) : List Intersection :=
  if p1.2 ≠ p2.2 then
    let t := (md.min_lat - p1.2) / (p2.2 - p1.2)
    if 0 ≤ t ∧ t ≤ 1 then
      let lon_intersect := p1.1 + t * (p2.1 - p1.1)
      if md.min_lon ≤ lon_intersect ∧ lon_intersect ≤ md.max_lon then
        [{ point := (lon_intersect, md.min_lat), is_entering := decide (p1.2 < p2.2),
           side := Side.BOTTOM }]
      else []
    else []
  else []

/-- The LEFT-side candidate: entering iff moving right. -/
def leftCandidate (p1 p2 : Coord) (md : MapDimensions) : List Intersection :=
  if p1.1 ≠ p2.1 then
    let t := (md.min_lon - p1.1) / (p2.1 - p1.1)
    if 0 ≤ t ∧ t ≤ 1 then
      let lat_intersect := p1.2 + t * (p2.2 - p1.2)
      if md.min_lat ≤ lat_intersect ∧ lat_intersect ≤ md.max_lat then
        [{ point := (md.min_lon, lat_intersect), is_entering := decide (p1.1 < p2.1),
           side := Side.LEFT }]
      else []
    else []
  else []

/-- The candidate intersections the source builds for a crossing segment,
appended in the source's order TOP, RIGHT, BOTTOM, LEFT. -/
def boundaryCandidates (p1 p2 : Coord) (md : MapDimensions) : List Intersection :=
  topCandidate p1 p2 md ++ rightCandidate p1 p2 md ++
    bottomCandidate p1 p2 md ++ leftCandidate p1 p2 md

/-- Squared distance from `p1` used for the closest-candidate selection. -/
def sqDistFrom (p1 : Coord) (i : Intersection) : ℚ :=
  (i.point.1 - p1.1) * (i.point.1 - p1.1) + (i.point.2 - p1.2) * (i.point.2 - p1.2)

/-- Python `intersections[distances.index(min(distances))]`: the first
candidate attaining the minimal squared distance.  The fold keeps the
current best and replaces it only on a strictly smaller distance. -/
def pickFirstMin (p1 : Coord) : List Intersection → Option Intersection
  | [] => none
  | i :: is =>
    some (is.foldl (fun best c => if sqDistFrom p1 c < sqDistFrom p1 best then c else best) i)

/-- Result of classifying one segment against the rectangle. -/
inductive SegClass where
  | inside
  | outside
  | cross (i : Intersection)
deriving DecidableEq, Repr

/-- `CoastlineHandler.find_segment_intersection_with_boundary`. -/
def find_segment_intersection_with_boundary (p1 p2 : Coord) (md : MapDimensions) :
    Except CoastErr SegClass :=
  let p1_inside := is_inside_map p1 md
  let p2_inside := is_inside_map p2 md
  if p1_inside && p2_inside then Except.ok SegClass.inside
  else if !p1_inside && !p2_inside then Except.ok SegClass.outside
  else
    match pickFirstMin p1 (boundaryCandidates p1 p2 md) with
    | some i => Except.ok (SegClass.cross i)
    | none => Except.error CoastErr.MalformedGeometry

/-- Per-chain state of the accumulation loop in
`bound_and_sort_complete_coastlines` (lines 400–456 of the source).
`emitted` is `bounded_coastlines_from_complete_coastline`, `acc` the
`bounded_coastline_accumulator`, `curId` the `current_bounded_coastline_id`,
and `nextId` the uuid supply. -/
structure ChainState where
  crossed : Bool
  emitted : List (Nat × Line)
  acc : Line
  curId : Nat
  nextId : Nat
  imap : IntersectionMap
deriving DecidableEq, Repr

/-- The fresh per-chain state at the top of the `for` body: empty
accumulator, no emission, a freshly generated current id. -/
def initChainState (n : Nat) (imap : IntersectionMap) : ChainState :=
  { crossed := false, emitted := [], acc := [], curId := n, nextId := n + 1, imap := imap }

/-- One iteration of the segment loop of the clipper, for the pair
`(p1, p2)`. -/
def clipSeg (md : MapDimensions) (st : ChainState) (p1 p2 : Coord) :
    Except CoastErr ChainState := do
  match ← find_segment_intersection_with_boundary p1 p2 md with
  | SegClass.inside =>
    if st.acc.isEmpty then
      return { st with acc := [p1, p2] }
    else
      return { st with acc := st.acc ++ [p2] }
  | SegClass.outside =>
    if st.acc.isEmpty then
      return st
    else
      throw CoastErr.AccumulatorOutside
  | SegClass.cross i =>
    let st := { st with crossed := true,
                        imap := st.imap.push i.side
                          { point := i.point, is_entering := i.is_entering,
                            side := i.side, bounded_coastline_id := st.curId } }
    if i.is_entering then
      return { st with acc := [i.point, p2] }
    else
      let acc := (if st.acc.isEmpty then [p1] else st.acc) ++ [i.point]
      return { st with emitted := st.emitted ++ [(st.curId, acc)],
                       curId := st.nextId, nextId := st.nextId + 1, acc := [] }

/-- The segment loop over all consecutive pairs of the chain. -/
def clipSegs (md : MapDimensions) (st : ChainState) : List Coord → Except CoastErr ChainState
  | [] => Except.ok st
  | [_] => Except.ok st
  | p1 :: p2 :: rest => do clipSegs md (← clipSeg md st p1 p2) (p2 :: rest)

/-- The merge step's per-event rewrite: events carrying `old` are renamed
to `new`. -/
def renameEvent (old new : Nat) (e : IntersectionWithId) : IntersectionWithId :=
  if e.bounded_coastline_id = old then { e with bounded_coastline_id := new } else e

/-- The merge step's rewriting loop over all four sides. -/
def renameMap (old new : Nat) (m : IntersectionMap) : IntersectionMap :=
  { top := m.top.map (renameEvent old new),
    right := m.right.map (renameEvent old new),
    bottom := m.bottom.map (renameEvent old new),
    left := m.left.map (renameEvent old new) }

/-- The post-loop processing of one chain (lines 458–503): keep a closed
interior chain, merge a re-joining tail into the first bounded coastline
rewriting its events, or publish the tail as its own bounded coastline. -/
def finishChain (chain : Line) (st : ChainState) :
    Except CoastErr (Option Line × List (Nat × Line) × IntersectionMap) := do
  if st.acc.isEmpty then
    return (none, st.emitted, st.imap)
  else
    if !st.crossed then
      if !st.emitted.isEmpty then
        throw CoastErr.ClosedButBounded
      else
        return (some st.acc, st.emitted, st.imap)
    else if st.acc.getLast? = chain.head? then
      match st.emitted with
      | [] => throw CoastErr.MergeOnEmpty
      | (firstId, firstCoords) :: rest =>
        return (none, (firstId, st.acc ++ firstCoords.tail) :: rest,
          renameMap st.curId firstId st.imap)
    else
      return (none, st.emitted ++ [(st.curId, st.acc)], st.imap)

/-- Clip one complete chain: the body of the `for complete_coastline` loop.
Takes and returns the running `(closed, open, imap, nextId)` state. -/
def clipChain (md : MapDimensions)
    (closed : List Line) (openC : List (Nat × Line)) (imap : IntersectionMap) (nextId : Nat)
    (chain : Line) :
    Except CoastErr (List Line × List (Nat × Line) × IntersectionMap × Nat) := do
  if chain.length < 2 then
    return (closed, openC, imap, nextId)
  else
    let st ← clipSegs md (initChainState nextId imap) chain
    let (newClosed, emitted, imap') ← finishChain chain st
    let closed := match newClosed with
      | some l => closed ++ [l]
      | none => closed
    return (closed, openC ++ emitted, imap', st.nextId)

/-- Sort each side's events clockwise along the perimeter (lines 511–515):
TOP ascending lon, RIGHT descending lat, BOTTOM descending lon, LEFT
ascending lat.  `List.insertionSort` is stable, as Python's `list.sort`
(with `reverse=True` embedded as the reversed non-strict comparison, which
is also stable). -/
def sortIntersectionMap (m : IntersectionMap) : IntersectionMap :=
  { top := m.top.insertionSort (fun a b => a.point.1 ≤ b.point.1),
    right := m.right.insertionSort (fun a b => b.point.2 ≤ a.point.2),
    bottom := m.bottom.insertionSort (fun a b => b.point.1 ≤ a.point.1),
    left := m.left.insertionSort (fun a b => a.point.2 ≤ b.point.2) }

/-- The counting loop of `validate_intersection_map`: fold over the sides
in `Side` order, incrementing the entering or the exiting counter per
event. -/
def countIntersections (m : IntersectionMap) : Nat × Nat :=
  [Side.TOP, Side.RIGHT, Side.BOTTOM, Side.LEFT].foldl
    (fun c s =>
      (m.get s).foldl
        (fun c e => if e.is_entering then (c.1 + 1, c.2) else (c.1, c.2 + 1)) c)
    (0, 0)

/-- `CoastlineHandler.validate_intersection_map`: count entering and
exiting events over all sides and fail when the counts differ.  The raised
Python error is one constant string; it names no side. -/
def validate_intersection_map (m : IntersectionMap) : Except CoastErr Bool :=
  let counts := countIntersections m
  if counts.1 ≠ counts.2 then
    Except.error CoastErr.IncompleteCoastline
  else
    Except.ok true

/-- The `for complete_coastline in complete_coastlines` loop of
`bound_and_sort_complete_coastlines`. -/
def clipChains (md : MapDimensions) (closed : List Line) (openC : List (Nat × Line))
    (imap : IntersectionMap) (nextId : Nat) :
    List Line → Except CoastErr (List Line × List (Nat × Line) × IntersectionMap × Nat)
  | [] => Except.ok (closed, openC, imap, nextId)
  | chain :: rest => do
    let (c, o, m, g) ← clipChain md closed openC imap nextId chain
    clipChains md c o m g rest

/-- `CoastlineHandler.bound_and_sort_complete_coastlines`, starting from the
chains the assembler produced.  `globalMap` is the current content of the
four lists shared through `EMPTY_INTERSECTION_MAP.copy()`; the returned map
is simultaneously the new content of those global lists (Python's
`list.sort` sorts in place). -/
def bound_and_sort_complete_coastlines (globalMap : IntersectionMap)
    (chains : List Line) (md : MapDimensions) (nextId : Nat) :
    Except CoastErr (List Line × List (Nat × Line) × IntersectionMap × Nat) := do
  let (closed, openC, imap, idGen) ← clipChains md [] [] globalMap nextId chains
  let sorted := sortIntersectionMap imap
  let _ ← validate_intersection_map sorted
  return (closed, openC, sorted, idGen)

/-- `CoastlineHandler.find_intersection_map_starting_point`: the first
entering event scanning sides TOP, RIGHT, BOTTOM, LEFT. -/
def find_intersection_map_starting_point (m : IntersectionMap) : Option (Side × Nat) :=
  match m.top.findIdx? (fun e => e.is_entering) with
  | some i => some (Side.TOP, i)
  | none =>
    match m.right.findIdx? (fun e => e.is_entering) with
    | some i => some (Side.RIGHT, i)
    | none =>
      match m.bottom.findIdx? (fun e => e.is_entering) with
      | some i => some (Side.BOTTOM, i)
      | none =>
        match m.left.findIdx? (fun e => e.is_entering) with
        | some i => some (Side.LEFT, i)
        | none => none

/-- Lookup in the `open_coastlines` dict, embedded as an association list
with distinct keys. -/
def lookupOC : List (Nat × Line) → Nat → Option Line
  | [], _ => none
  | (k, l) :: rest, id => if k = id then some l else lookupOC rest id

/-- In-place update of one entry of `open_coastlines` (the effect of
mutating the stored list object through an alias). -/
def updateOC : List (Nat × Line) → Nat → Line → List (Nat × Line)
  | [], _, _ => []
  | (k, v) :: rest, id, l =>
    if k = id then (id, l) :: updateOC rest id l else (k, v) :: updateOC rest id l

/-- State of the `join_open_coastlines` while-loop.  `accRef` records which
stored list the accumulator currently *is* (Python object identity):
`insert(0, x)` on the accumulator then also rewrites that entry of
`openC`.  `curSkipped` here is a genuinely fresh empty map, which models a
call whose `intersection_map` argument does not share the global lists. -/
structure WalkState where
  looking_exit : Bool
  side : Side
  idx : Nat
  openC : List (Nat × Line)
  accRef : Option Nat
  acc : Line
  exitId : Option Nat
  entranceId : Option Nat
  results : List Line
  skipped : List IntersectionMap
  curSkipped : IntersectionMap
  curSkippedUsed : Bool
deriving DecidableEq, Repr

/-- Python `current_open_coastline_accumulator.insert(0, x)`: prepend to
the accumulator and, through the alias, to the stored list. -/
def WalkState.insertFront (st : WalkState) (x : Coord) : WalkState :=
  { st with acc := x :: st.acc,
            openC := match st.accRef with
              | some id => updateOC st.openC id (x :: st.acc)
              | none => st.openC }

/-- One iteration of the walker's while-loop body (lines 616–706). -/
def walkStep (md : MapDimensions) (imap : IntersectionMap) (st : WalkState) :
    Except CoastErr WalkState :=
  match (imap.get st.side)[st.idx]? with
  | none =>
    let st := if st.looking_exit && st.entranceId = none then
        st.insertFront (side_clockwise_corners md st.side)
      else st
    Except.ok { st with idx := 0, side := NEXT_SIDE_MAP st.side }
  | some e =>
    match lookupOC st.openC e.bounded_coastline_id with
    | none => Except.error (CoastErr.NoCoastlineForIntersection e)
    | some chain =>
      if st.looking_exit then
        if e.is_entering then Except.error CoastErr.EnteringWhenLookingForExit
        else
          match st.exitId with
          | none => Except.error CoastErr.NoExitIdToLookFor
          | some xid =>
            if e.bounded_coastline_id = xid then
              match chain.getLast? with
              | none => Except.error CoastErr.EmptyCoastline
              | some lastPt =>
                let st := st.insertFront lastPt
                Except.ok { st with results := st.results ++ [st.acc],
                                    exitId := none, acc := [], accRef := none,
                                    looking_exit := false, idx := st.idx + 1 }
            else
              match st.entranceId with
              | none =>
                Except.ok { st with entranceId := some e.bounded_coastline_id,
                                    acc := chain ++ st.acc, accRef := none,
                                    looking_exit := false, idx := st.idx + 1 }
              | some _ => Except.error CoastErr.UnexpectedNestedExit
      else
        if !e.is_entering then Except.error CoastErr.ExitingWhenLookingForEnter
        else
          match st.exitId with
          | none =>
            Except.ok { st with exitId := some e.bounded_coastline_id, acc := chain,
                                accRef := some e.bounded_coastline_id,
                                looking_exit := true, idx := st.idx + 1 }
          | some _ =>
            if some e.bounded_coastline_id = st.entranceId then
              let st := if st.curSkippedUsed then
                  { st with skipped := st.skipped ++ [st.curSkipped],
                            curSkipped := emptyIntersectionMap }
                else st
              Except.ok { st with entranceId := none, looking_exit := true, idx := st.idx + 1 }
            else
              Except.ok { st with curSkipped := st.curSkipped.push st.side e,
                                  curSkippedUsed := true, idx := st.idx + 1 }

/-- The walker's while-loop, with fuel; `none` means the fuel ran out
before the cursor returned to the starting `(side, index)`. -/
def walkLoop : Nat → MapDimensions → IntersectionMap → Side × Nat → WalkState →
    Option (Except CoastErr WalkState)
  | 0, _, _, _, _ => none
  | fuel + 1, md, imap, start, st =>
    if st.side = start.1 ∧ st.idx = start.2 then some (Except.ok st)
    else
      match walkStep md imap st with
      | Except.error e => some (Except.error e)
      | Except.ok st' => walkLoop fuel md imap start st'

/-- Initialisation of the walker (lines 589–614): read the starting event,
adopt its coastline as root accumulator (an alias of the stored list), and
advance the cursor once. -/
def joinInit (oc : List (Nat × Line)) (imap : IntersectionMap) (start : Side × Nat) :
    Except CoastErr WalkState :=
  match (imap.get start.1)[start.2]? with
  | none => Except.error CoastErr.BadStartingPoint
  | some ev =>
    match lookupOC oc ev.bounded_coastline_id with
    | none => Except.error CoastErr.BadStartingPoint
    | some chain =>
      Except.ok
        { looking_exit := true, side := start.1, idx := start.2 + 1, openC := oc,
          accRef := some ev.bounded_coastline_id, acc := chain,
          exitId := some ev.bounded_coastline_id, entranceId := none,
          results := [], skipped := [], curSkipped := emptyIntersectionMap,
          curSkippedUsed := false }

/-- The `for skipped_intersection_map in skipped_intersections` loop at the
end of `join_open_coastlines`: recurse on each deferred map that has a
starting point, threading `open_coastlines` and appending results.  The
recursive call is passed in as `join`. -/
def joinSkipped (join : List (Nat × Line) → IntersectionMap → Side × Nat → MapDimensions →
    Option (Except CoastErr (List Line × List (Nat × Line)))) :
    List IntersectionMap → List Line → List (Nat × Line) → MapDimensions →
    Option (Except CoastErr (List Line × List (Nat × Line)))
  | [], res, oc, _ => some (Except.ok (res, oc))
  | m :: ms, res, oc, md =>
    match find_intersection_map_starting_point m with
    | none => joinSkipped join ms res oc md
    | some sp =>
      match join oc m sp md with
      | none => none
      | some (Except.error e) => some (Except.error e)
      | some (Except.ok (r, oc')) => joinSkipped join ms (res ++ r) oc' md

/-- `CoastlineHandler.join_open_coastlines` with explicit fuel for the
recursion on deferred maps (`recFuel`) and for each while-loop
(`loopFuel`); `none` means some fuel ran out.  The returned pair is the
list of closed coastlines and the final content of `open_coastlines`
(which the walk mutates through the accumulator alias). -/
def join_open_coastlines : Nat → Nat → List (Nat × Line) → IntersectionMap →
    Side × Nat → MapDimensions → Option (Except CoastErr (List Line × List (Nat × Line)))
  | 0, _, _, _, _, _ => none
  | recFuel + 1, loopFuel, oc, imap, start, md =>
    match joinInit oc imap start with
    | Except.error e => some (Except.error e)
    | Except.ok st0 =>
      match walkLoop loopFuel md imap start st0 with
      | none => none
      | some (Except.error e) => some (Except.error e)
      | some (Except.ok st) =>
        joinSkipped (join_open_coastlines recFuel loopFuel) st.skipped st.results st.openC md

/-- Walk state for the repository's actual call path, where the walked
`intersection_map` and every `current_skipped_intersection_map` are the
same four list objects: deferred events are appended to the very lists
being walked.  `imap` is that single shared map; `skippedCount` counts the
appends to `skipped_intersections` (each appended reference is again the
same map). -/
structure SharedWalkState where
  looking_exit : Bool
  side : Side
  idx : Nat
  openC : List (Nat × Line)
  accRef : Option Nat
  acc : Line
  exitId : Option Nat
  entranceId : Option Nat
  results : List Line
  imap : IntersectionMap
  skippedCount : Nat
  curSkippedUsed : Bool
deriving DecidableEq, Repr

/-- Prepend to the accumulator and, through the alias, to the stored list
(shared-map model). -/
def SharedWalkState.insertFront (st : SharedWalkState) (x : Coord) : SharedWalkState :=
  { st with acc := x :: st.acc,
            openC := match st.accRef with
              | some id => updateOC st.openC id (x :: st.acc)
              | none => st.openC }

/-- One iteration of the walker's while-loop in the shared-map model: the
only difference from `walkStep` is that deferring an event appends it to
the walked map itself. -/
def walkStepShared (md : MapDimensions) (st : SharedWalkState) :
    Except CoastErr SharedWalkState :=
  match (st.imap.get st.side)[st.idx]? with
  | none =>
    let st := if st.looking_exit && st.entranceId = none then
        st.insertFront (side_clockwise_corners md st.side)
      else st
    Except.ok { st with idx := 0, side := NEXT_SIDE_MAP st.side }
  | some e =>
    match lookupOC st.openC e.bounded_coastline_id with
    | none => Except.error (CoastErr.NoCoastlineForIntersection e)
    | some chain =>
      if st.looking_exit then
        if e.is_entering then Except.error CoastErr.EnteringWhenLookingForExit
        else
          match st.exitId with
          | none => Except.error CoastErr.NoExitIdToLookFor
          | some xid =>
            if e.bounded_coastline_id = xid then
              match chain.getLast? with
              | none => Except.error CoastErr.EmptyCoastline
              | some lastPt =>
                let st := st.insertFront lastPt
                Except.ok { st with results := st.results ++ [st.acc],
                                    exitId := none, acc := [], accRef := none,
                                    looking_exit := false, idx := st.idx + 1 }
            else
              match st.entranceId with
              | none =>
                Except.ok { st with entranceId := some e.bounded_coastline_id,
                                    acc := chain ++ st.acc, accRef := none,
                                    looking_exit := false, idx := st.idx + 1 }
              | some _ => Except.error CoastErr.UnexpectedNestedExit
      else
        if !e.is_entering then Except.error CoastErr.ExitingWhenLookingForEnter
        else
          match st.exitId with
          | none =>
            Except.ok { st with exitId := some e.bounded_coastline_id, acc := chain,
                                accRef := some e.bounded_coastline_id,
                                looking_exit := true, idx := st.idx + 1 }
          | some _ =>
            if some e.bounded_coastline_id = st.entranceId then
              let st := if st.curSkippedUsed then
                  { st with skippedCount := st.skippedCount + 1 }
                else st
              Except.ok { st with entranceId := none, looking_exit := true, idx := st.idx + 1 }
            else
              Except.ok { st with imap := st.imap.push st.side e,
                                  curSkippedUsed := true, idx := st.idx + 1 }

/-- The walker's while-loop in the shared-map model. -/
def walkLoopShared : Nat → MapDimensions → Side × Nat → SharedWalkState →
    Option (Except CoastErr SharedWalkState)
  | 0, _, _, _ => none
  | fuel + 1, md, start, st =>
    if st.side = start.1 ∧ st.idx = start.2 then some (Except.ok st)
    else
      match walkStepShared md st with
      | Except.error e => some (Except.error e)
      | Except.ok st' => walkLoopShared fuel md start st'

/-- The shared-model walk started at `st` never finishes: no amount of
fuel reaches the starting point or an error. -/
def walkSharedDiverges (md : MapDimensions) (start : Side × Nat) (st : SharedWalkState) : Prop :=
  ∀ fuel, walkLoopShared fuel md start st = none

/-! ### Concrete fixtures

The spec's scenario rectangle: lon ∈ [0,10], lat ∈ [0,10]. -/

def md0 : MapDimensions := { min_lat := 0, min_lon := 0, max_lat := 10, max_lon := 10 }

/-- Scenario 2 of the spec: a chain that leaves through TOP at (3,10) and
comes back through TOP at (7,10), starting and ending strictly inside. -/
def c1chain : Line := [(3, 5), (3, 12), (7, 12), (7, 5)]

/-- What the clipper actually produces for `c1chain`: two bounded
coastlines, ids 0 and 1. -/
def c1open : List (Nat × Line) := [(0, [(3, 5), (3, 10)]), (1, [(7, 10), (7, 5)])]

/-- The intersection map the clipper actually produces for `c1chain`. -/
def c1map : IntersectionMap :=
  { top := [{ point := (3, 10), is_entering := false, side := Side.TOP, bounded_coastline_id := 0 },
            { point := (7, 10), is_entering := true, side := Side.TOP, bounded_coastline_id := 1 }],
    right := [], bottom := [], left := [] }

/-- The map a second clipper run over `c1chain` returns when the global
per-side lists still hold the first run's events. -/
def c3map2 : IntersectionMap :=
  { top := [{ point := (3, 10), is_entering := false, side := Side.TOP, bounded_coastline_id := 0 },
            { point := (3, 10), is_entering := false, side := Side.TOP, bounded_coastline_id := 2 },
            { point := (7, 10), is_entering := true, side := Side.TOP, bounded_coastline_id := 1 },
            { point := (7, 10), is_entering := true, side := Side.TOP, bounded_coastline_id := 3 }],
    right := [], bottom := [], left := [] }

/-- A map with one entering event on TOP and nothing else. -/
def c4mapTop : IntersectionMap :=
  { top := [{ point := (5, 10), is_entering := true, side := Side.TOP, bounded_coastline_id := 0 }],
    right := [], bottom := [], left := [] }

/-- A map with one entering event on LEFT and nothing else. -/
def c4mapLeft : IntersectionMap :=
  { top := [], right := [], bottom := [],
    left := [{ point := (0, 5), is_entering := true, side := Side.LEFT, bounded_coastline_id := 0 }] }

/-- A chain that starts and ends strictly inside without closing: it exits
TOP at (5,10) and re-enters TOP at (2,10), so validation balances although
id 0 never gets an entering event. -/
def c6chain : Line := [(5, 5), (5, 12), (2, 12), (2, 5)]

/-- The (sorted) map the clipper produces for `c6chain`. -/
def c6map : IntersectionMap :=
  { top := [{ point := (2, 10), is_entering := true, side := Side.TOP, bounded_coastline_id := 1 },
            { point := (5, 10), is_entering := false, side := Side.TOP, bounded_coastline_id := 0 }],
    right := [], bottom := [], left := [] }

/-- A chain whose only crossings are tagged entering (its second vertex
lies exactly on the TOP boundary), and whose accumulator closes back on
the first vertex: the merge branch fires with no emitted sub-chain and the
source raises `IndexError` on `[0]`. -/
def c7chain : Line := [(5, 5), (5, 10), (11, 9), (5, 5)]

/-- Scenario 3 of the spec: a chain entering TOP at (8,10) and leaving
through RIGHT at (10,3). -/
def c8chain : Line := [(8, 12), (8, 3), (12, 3)]

/-- The bounded coastline the clipper publishes for `c8chain`. -/
def c8open : List (Nat × Line) := [(0, [(8, 10), (8, 3), (10, 3)])]

/-- The intersection map the clipper produces for `c8chain`. -/
def c8map : IntersectionMap :=
  { top := [{ point := (8, 10), is_entering := true, side := Side.TOP, bounded_coastline_id := 0 }],
    right := [{ point := (10, 3), is_entering := false, side := Side.RIGHT, bounded_coastline_id := 0 }],
    bottom := [], left := [] }

/-- Scenario 1 of the spec: a closed chain entirely inside the rectangle. -/
def c9chain : Line := [(2, 2), (8, 2), (8, 8), (2, 8), (2, 2)]

/-- A closed chain starting strictly inside that exits TOP at (5,10) and
re-enters TOP at (2,10): the merge branch of the clipper fires. -/
def mergeChain : Line := [(5, 5), (5, 12), (2, 12), (2, 5), (5, 5)]

/-- Number of entering events carrying `id` in the map. -/
def countEntering (m : IntersectionMap) (id : Nat) : Nat :=
  m.all.countP (fun e => decide (e.bounded_coastline_id = id) && e.is_entering)

/-- Number of exiting events carrying `id` in the map. -/
def countExiting (m : IntersectionMap) (id : Nat) : Nat :=
  m.all.countP (fun e => decide (e.bounded_coastline_id = id) && !e.is_entering)

/-- Initialisation of the walker in the shared-map model: identical to
`joinInit` except that the walked map lives in the state and the deferred
events are counted rather than stored. -/
def sharedInit (oc : List (Nat × Line)) (imap : IntersectionMap) (start : Side × Nat) :
    Except CoastErr SharedWalkState :=
  match (imap.get start.1)[start.2]? with
  | none => Except.error CoastErr.BadStartingPoint
  | some ev =>
    match lookupOC oc ev.bounded_coastline_id with
    | none => Except.error CoastErr.BadStartingPoint
    | some chain =>
      Except.ok
        { looking_exit := true, side := start.1, idx := start.2 + 1, openC := oc,
          accRef := some ev.bounded_coastline_id, acc := chain,
          exitId := some ev.bounded_coastline_id, entranceId := none,
          results := [], imap := imap, skippedCount := 0, curSkippedUsed := false }

/-- First chain of the divergence fixture: enters TOP at (1,10) and exits
LEFT at (0,8). -/
def divA : Line := [(1, 12), (1, 8), (-2, 8)]

/-- Second chain of the divergence fixture: enters RIGHT at (10,6) and
exits TOP at (2,10). -/
def divB : Line := [(12, 6), (8, 6), (1/2, 11)]

/-- Third chain of the divergence fixture: enters TOP at (3,10) and exits
BOTTOM at (3,0). -/
def divC : Line := [(3, 12), (3, 5), (3, -2)]

/-- The entering event of chain `divA` on TOP. -/
def evA : IntersectionWithId :=
  { point := (1, 10), is_entering := true, side := Side.TOP, bounded_coastline_id := 0 }

/-- The exiting event of chain `divB` on TOP. -/
def evB : IntersectionWithId :=
  { point := (2, 10), is_entering := false, side := Side.TOP, bounded_coastline_id := 2 }

/-- The entering event of chain `divC` on TOP. -/
def evC : IntersectionWithId :=
  { point := (3, 10), is_entering := true, side := Side.TOP, bounded_coastline_id := 4 }

/-- The three bounded coastlines the clipper publishes for
`[divA, divB, divC]`. -/
def divOpen : List (Nat × Line) :=
  [(0, [(1, 10), (1, 8), (0, 8)]), (2, [(10, 6), (8, 6), (2, 10)]), (4, [(3, 10), (3, 5), (3, 0)])]

/-- The sorted intersection map the clipper produces for
`[divA, divB, divC]`: TOP carries enter(0), exit(2), enter(4). -/
def divMap : IntersectionMap :=
  { top := [evA, evB, evC],
    right := [{ point := (10, 6), is_entering := true, side := Side.RIGHT, bounded_coastline_id := 2 }],
    bottom := [{ point := (3, 0), is_entering := false, side := Side.BOTTOM, bounded_coastline_id := 4 }],
    left := [{ point := (0, 8), is_entering := false, side := Side.LEFT, bounded_coastline_id := 0 }] }

/-- The walker's state right after initialisation at (TOP, 0): root
accumulator chain 0, looking for its exit, cursor at (TOP, 1). -/
def divInit : SharedWalkState :=
  { looking_exit := true, side := Side.TOP, idx := 1, openC := divOpen, accRef := some 0,
    acc := [(1, 10), (1, 8), (0, 8)], exitId := some 0, entranceId := none, results := [],
    imap := divMap, skippedCount := 0, curSkippedUsed := false }

/-- The state after absorbing chain 2's exit at (TOP, 1) as a nested
sub-chain: now looking for the entrance of id 2. -/
def divStateA : SharedWalkState :=
  { looking_exit := false, side := Side.TOP, idx := 2, openC := divOpen, accRef := none,
    acc := [(10, 6), (8, 6), (2, 10), (1, 10), (1, 8), (0, 8)], exitId := some 0,
    entranceId := some 2, results := [], imap := divMap, skippedCount := 0,
    curSkippedUsed := false }

/-- The walker's state after deferring `evC` for the (k+1)-st time: the
deferral appended `evC` to the shared TOP list, so the cursor at index
3 + k reads `evC` again. -/
def divState (k : Nat) : SharedWalkState :=
  { looking_exit := false, side := Side.TOP, idx := 3 + k, openC := divOpen, accRef := none,
    acc := [(10, 6), (8, 6), (2, 10), (1, 10), (1, 8), (0, 8)], exitId := some 0,
    entranceId := some 2, results := [],
    imap := { divMap with top := [evA, evB, evC] ++ List.replicate (k + 1) evC },
    skippedCount := 0, curSkippedUsed := true }


/-- The invariant of the clipper's segment loop for a single chain run on
an empty global map, at the point where `prev` is the last processed
vertex: freshness of ids, the accumulator ends at an inside `prev`, and
the per-id entering and exiting event counts of every emitted and of the
current bounded coastline. -/
def C6Inv (md : MapDimensions) (startIn : Bool) (prev : Coord) (st : ChainState) : Prop :=
  (∀ p ∈ st.emitted, p.1 < st.curId) ∧
  st.curId < st.nextId ∧
  (∀ id, st.nextId ≤ id →
    countEntering st.imap id = 0 ∧ countExiting st.imap id = 0) ∧
  (st.acc ≠ [] → is_inside_map prev md = true ∧ st.acc.getLast? = some prev) ∧
  (st.acc = [] → st.emitted ≠ [] → is_inside_map prev md = false) ∧
  (st.acc = [] → st.emitted = [] →
    st.crossed = false ∧ is_inside_map prev md = startIn) ∧
  (st.acc = [] →
    countEntering st.imap st.curId = 0 ∧ countExiting st.imap st.curId = 0) ∧
  (st.acc ≠ [] → countExiting st.imap st.curId = 0 ∧
    countEntering st.imap st.curId = (if startIn ∧ st.emitted = [] then 0 else 1)) ∧
  (match st.emitted with
   | [] => True
   | (id0, _) :: rest =>
     countEntering st.imap id0 = (if startIn then 0 else 1) ∧
     countExiting st.imap id0 = 1 ∧
     ∀ p ∈ rest, id0 < p.1 ∧ countEntering st.imap p.1 = 1 ∧ countExiting st.imap p.1 = 1)
/-- The clipper state after an entering crossing at `i`: event pushed under
the current id, accumulator restarted at the crossing point. -/
def enterState (st : ChainState) (i : Intersection) (p2 : Coord) : ChainState :=
  { st with crossed := true,
            imap := st.imap.push i.side
              { point := i.point, is_entering := i.is_entering,
                side := i.side, bounded_coastline_id := st.curId },
            acc := [i.point, p2] }

/-- The clipper state after an exiting crossing at `i`: event pushed under
the current id, the accumulator (or `[p1]`) closed with the crossing point
and emitted, and a fresh current id drawn. -/
def exitState (st : ChainState) (i : Intersection) (p1 : Coord) : ChainState :=
  { st with crossed := true,
            imap := st.imap.push i.side
              { point := i.point, is_entering := i.is_entering,
                side := i.side, bounded_coastline_id := st.curId },
            emitted := st.emitted ++
              [(st.curId, (if st.acc.isEmpty then [p1] else st.acc) ++ [i.point])],
            curId := st.nextId, nextId := st.nextId + 1, acc := [] }

/-- The sorted intersection map the clipper produces for `mergeChain`. -/
def c6resMap : IntersectionMap :=
  { top := [{ point := (2, 10), is_entering := true, side := Side.TOP, bounded_coastline_id := 0 },
            { point := (5, 10), is_entering := false, side := Side.TOP, bounded_coastline_id := 0 }],
    right := [], bottom := [], left := [] }

/-! ### Claim C1 -/

/-- C1, counterexample.  On the chain `[(3,5),(3,12),(7,12),(7,5)]` in the
rectangle `[0,10] × [0,10]` the clipper emits *two* bounded coastlines,
`[(3,5),(3,10)]` and `[(7,10),(7,5)]`, not the single claimed sub-chain
`[(3,10),(3,5),(7,5),(7,10)]`; and the closure walker, started at the only
entering event, publishes *no* polygon at all instead of the claimed
`[(3,10),(3,5),(7,5),(7,10),(3,10)]`. -/
theorem C1_counterexample :
    (bound_and_sort_complete_coastlines emptyIntersectionMap [c1chain] md0 0).map
        (fun r => r.2.1.map Prod.snd) = Except.ok [[(3, 5), (3, 10)], [(7, 10), (7, 5)]] ∧
    ([[(3, 5), (3, 10)], [(7, 10), (7, 5)]] : List Line) ≠ [[(3, 10), (3, 5), (7, 5), (7, 10)]] ∧
    (join_open_coastlines 10 100 c1open c1map (Side.TOP, 1) md0).map
        (Except.map Prod.fst) = some (Except.ok []) ∧
    ([] : List Line) ≠ [[(3, 10), (3, 5), (7, 5), (7, 10), (3, 10)]] :=
  ⟨rfl, by decide, rfl, by decide⟩

/-- C1, amended.  On the chain `[(3,5),(3,12),(7,12),(7,5)]` the clipper
emits two bounded coastlines: id 0 with coords `[(3,5),(3,10)]` carrying
the exiting event at (3,10), and id 1 with coords `[(7,10),(7,5)]`
carrying the entering event at (7,10), both on TOP.  The walker starts at
the entering event (TOP, index 1), walks the whole perimeter prepending
all four corners to the accumulator (which aliases chain 1), absorbs
chain 0 as a pretended nested sub-chain, and terminates having published
no polygon. -/
theorem C1_amended :
    bound_and_sort_complete_coastlines emptyIntersectionMap [c1chain] md0 0 =
      Except.ok ([], c1open, c1map, 2) ∧
    find_intersection_map_starting_point c1map = some (Side.TOP, 1) ∧
    join_open_coastlines 10 100 c1open c1map (Side.TOP, 1) md0 =
      some (Except.ok ([], [(0, [(3, 5), (3, 10)]),
                            (1, [(0, 10), (0, 0), (10, 0), (10, 10), (7, 10), (7, 5)])])) :=
  ⟨rfl, rfl, rfl⟩

/-! ### Claim C2

In the repository's actual call path `current_skipped_intersection_map`
shares its four per-side lists with the walked `intersection_map` (both
are shallow copies of `EMPTY_INTERSECTION_MAP`), so deferring an event
(case 7) appends it to the very list the cursor is traversing.  On the
three-chain fixture the walker reads the deferred copy of `evC`, defers
it again, and never reaches the end of TOP. -/

/-- The clipper output for the divergence fixture, by evaluation. -/
theorem divClip :
    bound_and_sort_complete_coastlines emptyIntersectionMap [divA, divB, divC] md0 0 =
      Except.ok ([], divOpen, divMap, 6) := by rfl

/-- The chosen starting point is the entering event of chain 0 on TOP. -/
theorem divStart : find_intersection_map_starting_point divMap = some (Side.TOP, 0) := by rfl

/-- Initialisation at (TOP, 0) yields `divInit`. -/
theorem divInit_eq : sharedInit divOpen divMap (Side.TOP, 0) = Except.ok divInit := by rfl

/-- Step 1: at (TOP, 1) the walker absorbs chain 2's exit as a nested
sub-chain. -/
theorem divStep1 : walkStepShared md0 divInit = Except.ok divStateA := by rfl

/-- Step 2: at (TOP, 2) the walker defers `evC`, appending it to the
shared TOP list. -/
theorem divStep2 : walkStepShared md0 divStateA = Except.ok (divState 0) := by rfl

/-- Every further step reads the deferred copy of `evC` at index 3 + k and
defers it again: the shared TOP list grows by one and the cursor advances
by one, forever. -/
theorem divStep (k : Nat) : walkStepShared md0 (divState k) = Except.ok (divState (k + 1)) := by
  have hget : ([evA, evB, evC] ++ List.replicate (k + 1) evC)[3 + k]? = some evC := by
    rw [List.getElem?_append_right (by simp)]
    simp [List.getElem?_replicate]
  unfold walkStepShared
  simp only [divState, IntersectionMap.get]
  rw [hget]
  simp only [evC, lookupOC, divOpen]
  norm_num [IntersectionMap.push, IntersectionMap.set, IntersectionMap.get, divMap]
  exact ⟨by omega, by rw [← List.replicate_succ']⟩

/-- No fuel suffices from any `divState k`. -/
theorem divLoopNone : ∀ n k, walkLoopShared n md0 (Side.TOP, 0) (divState k) = none := by
  intro n
  induction n with
  | zero => intro k; rfl
  | succ n ih =>
    intro k
    rw [walkLoopShared]
    rw [if_neg (by simp [divState])]
    rw [divStep k]
    exact ih (k + 1)

/-- C2.  The closure walker's main loop does *not* always terminate.  On
the clipper's own output for the chains `divA`, `divB`, `divC` — with the
shared-list semantics of the repository's call path, where every
`current_skipped_intersection_map` aliases the walked `intersection_map` —
the walk from the chosen starting point (TOP, 0) never returns to the
starting point and never raises: deferring events (case 7) grows the TOP
list under the cursor and the loop runs forever. -/
theorem C2_divergence :
    bound_and_sort_complete_coastlines emptyIntersectionMap [divA, divB, divC] md0 0 =
      Except.ok ([], divOpen, divMap, 6) ∧
    find_intersection_map_starting_point divMap = some (Side.TOP, 0) ∧
    sharedInit divOpen divMap (Side.TOP, 0) = Except.ok divInit ∧
    walkSharedDiverges md0 (Side.TOP, 0) divInit := by
  refine ⟨divClip, divStart, divInit_eq, ?_⟩
  intro fuel
  match fuel with
  | 0 => rfl
  | 1 => rfl
  | 2 => rfl
  | (n + 3) =>
    show walkLoopShared (n + 2 + 1) md0 (Side.TOP, 0) divInit = none
    rw [walkLoopShared]
    rw [if_neg (by simp [divInit])]
    rw [divStep1]
    show walkLoopShared (n + 1 + 1) md0 (Side.TOP, 0) divStateA = none
    rw [walkLoopShared]
    rw [if_neg (by simp [divStateA])]
    rw [divStep2]
    exact divLoopNone (n + 1) 0

/-! ### Claim C3 -/

/-- C3, failing input.  `EMPTY_INTERSECTION_MAP.copy()` is a shallow dict
copy, so every clipper invocation starts from the current content of the
same four global lists.  Embedding that content as the threaded
`globalMap`: a first run over `c1chain` leaves the two sorted events in
the global lists, and a second run over the same input starts from them —
not from fresh empty lists — and returns a four-event map and different
bounded-coastline ids, so the two runs' outputs differ. -/
theorem C3_shared_map :
    bound_and_sort_complete_coastlines emptyIntersectionMap [c1chain] md0 0 =
      Except.ok ([], c1open, c1map, 2) ∧
    bound_and_sort_complete_coastlines c1map [c1chain] md0 2 =
      Except.ok ([], [(2, [(3, 5), (3, 10)]), (3, [(7, 10), (7, 5)])], c3map2, 4) ∧
    c1map.top.length = 2 ∧ c3map2.top.length = 4 ∧ c3map2 ≠ c1map :=
  ⟨rfl, rfl, rfl, rfl, by decide⟩

/-! ### Claim C4 -/

/-- C4, counterexample.  Validation of a map whose single unmatched
entering event sits on TOP and of a map whose single unmatched entering
event sits on LEFT produce the *identical* error value (the source raises
one constant message string), so the error does not name the side hosting
the excess. -/
theorem C4_counterexample :
    validate_intersection_map c4mapTop = Except.error CoastErr.IncompleteCoastline ∧
    validate_intersection_map c4mapLeft = Except.error CoastErr.IncompleteCoastline ∧
    validate_intersection_map c4mapTop = validate_intersection_map c4mapLeft ∧
    c4mapTop.top ≠ [] ∧ c4mapTop.left = [] ∧ c4mapLeft.left ≠ [] ∧ c4mapLeft.top = [] :=
  ⟨rfl, rfl, rfl, by decide, rfl, by decide, rfl⟩

/-! ### Claim C6 -/

/-- C6, counterexample.  The chain `[(5,5),(5,12),(2,12),(2,5)]` starts and
ends strictly inside the rectangle without closing: the clipper publishes
the bounded coastline id 0 (coords `[(5,5),(5,10)]`), validation passes
(one entering, one exiting event in total), yet id 0 appears zero times as
an entering event in the resulting map — not exactly once. -/
theorem C6_counterexample :
    bound_and_sort_complete_coastlines emptyIntersectionMap [c6chain] md0 0 =
      Except.ok ([], [(0, [(5, 5), (5, 10)]), (1, [(2, 10), (2, 5)])], c6map, 2) ∧
    countEntering c6map 0 = 0 ∧ countExiting c6map 1 = 0 :=
  ⟨rfl, rfl, rfl⟩

/-! ### Claim C7 -/

/-- C7, counterexample.  The chain `[(5,5),(5,10),(11,9),(5,5)]` crosses
the boundary (its both crossings are tagged entering because the vertex
(5,10) lies exactly on the TOP side line), ends with the non-empty
accumulator `[(10,25/3),(5,5)]` whose last point equals the chain's first
point, and has *no* already-emitted bounded coastline: instead of merging,
the source indexes `bounded_coastlines_from_complete_coastline[0]` on an
empty list and dies with `IndexError`. -/
theorem C7_counterexample :
    clipSegs md0 { crossed := false, emitted := [], acc := [], curId := 0, nextId := 1,
                   imap := emptyIntersectionMap } c7chain =
      Except.ok { crossed := true, emitted := [], acc := [(10, 25/3), (5, 5)],
                  curId := 0, nextId := 1,
                  imap := { top := [{ point := (5, 10), is_entering := true,
                                      side := Side.TOP, bounded_coastline_id := 0 }],
                            right := [{ point := (10, 25/3), is_entering := true,
                                        side := Side.RIGHT, bounded_coastline_id := 0 }],
                            bottom := [], left := [] } } ∧
    c7chain.head? = some (5, 5) ∧
    bound_and_sort_complete_coastlines emptyIntersectionMap [c7chain] md0 0 =
      Except.error CoastErr.MergeOnEmpty :=
  ⟨rfl, rfl, rfl⟩

/-- The counter pair accumulated by one side's loop equals the starting
pair plus the side's entering and exiting event counts. -/
theorem countFold_eq (l : List IntersectionWithId) (c : Nat × Nat) :
    l.foldl (fun c e => if e.is_entering then (c.1 + 1, c.2) else (c.1, c.2 + 1)) c =
      (c.1 + l.countP (fun e => e.is_entering), c.2 + l.countP (fun e => !e.is_entering)) := by
  induction l generalizing c with
  | nil => simp
  | cons e rest ih =>
    simp only [List.foldl_cons, List.countP_cons, ih]
    cases he : e.is_entering
    · simp [he]
      omega
    · simp [he]
      omega

/-- The loop counters of `validate_intersection_map` equal the entering and
exiting event counts over all four sides. -/
theorem countIntersections_eq (m : IntersectionMap) :
    countIntersections m =
      (m.all.countP (fun e => e.is_entering), m.all.countP (fun e => !e.is_entering)) := by
  simp only [countIntersections, List.foldl_cons, List.foldl_nil, countFold_eq,
    IntersectionMap.all, IntersectionMap.get, List.countP_append]
  refine Prod.ext ?_ ?_ <;> dsimp only <;> omega

/-! ### Claim C4 (amended) -/

/-- C4, amended.  Validation succeeds exactly when the total entering count
equals the total exiting count, and otherwise fails with the (side-less)
`IncompleteCoastline` error. -/
theorem C4_amended (m : IntersectionMap) :
    (m.all.countP (fun e => e.is_entering) = m.all.countP (fun e => !e.is_entering) →
      validate_intersection_map m = Except.ok true) ∧
    (m.all.countP (fun e => e.is_entering) ≠ m.all.countP (fun e => !e.is_entering) →
      validate_intersection_map m = Except.error CoastErr.IncompleteCoastline) := by
  constructor <;> intro h <;>
    simp [validate_intersection_map, countIntersections_eq, h]

/-- C4, witness: the amended theorem applied to the one-entering-event map. -/
theorem C4_amended_witness :
    validate_intersection_map c4mapTop = Except.error CoastErr.IncompleteCoastline :=
  (C4_amended c4mapTop).2 (by decide)

/-! ### Claim C9 -/

/-- Reduction of a successful bind in the `Except` monad. -/
theorem exceptBind_ok {ε α β : Type} (a : α) (f : α → Except ε β) :
    (Except.ok (ε := ε) a >>= f) = f a := rfl

/-- Reduction of a failed bind in the `Except` monad. -/
theorem exceptBind_error {ε α β : Type} (e : ε) (f : α → Except ε β) :
    (Except.error (α := α) e >>= f) = Except.error e := rfl

/-- Reduction of `pure` in the `Except` monad. -/
theorem exceptPure {ε α : Type} (a : α) : (pure a : Except ε α) = Except.ok a := rfl

/-- A segment with both endpoints inside the rectangle (boundary included)
is classified `inside`. -/
theorem find_segment_inside (p1 p2 : Coord) (md : MapDimensions)
    (h1 : is_inside_map p1 md = true) (h2 : is_inside_map p2 md = true) :
    find_segment_intersection_with_boundary p1 p2 md = Except.ok SegClass.inside := by
  simp [find_segment_intersection_with_boundary, h1, h2]

/-- The segment loop over an all-inside chain only appends: starting from a
non-empty accumulator it appends every point after the first. -/
theorem clipSegs_inside_cons (md : MapDimensions) :
    ∀ (rest : List Coord) (x : Coord) (st : ChainState),
      (∀ q ∈ x :: rest, is_inside_map q md = true) → st.acc ≠ [] →
      clipSegs md st (x :: rest) = Except.ok { st with acc := st.acc ++ rest } := by
  intro rest
  induction rest with
  | nil =>
    intro x st _ _
    simp [clipSegs]
  | cons y ys ih =>
    intro x st h hacc
    have hx : is_inside_map x md = true := h x (by simp)
    have hy : is_inside_map y md = true := h y (by simp)
    obtain ⟨a, as, hcons⟩ := List.exists_cons_of_ne_nil hacc
    have hstep : clipSeg md st x y = Except.ok { st with acc := st.acc ++ [y] } := by
      simp [clipSeg, find_segment_inside x y md hx hy, hcons, exceptBind_ok, exceptPure]
    have htail : ∀ q ∈ y :: ys, is_inside_map q md = true := by
      intro q hq
      exact h q (List.mem_cons_of_mem x hq)
    calc clipSegs md st (x :: y :: ys)
        = clipSegs md { st with acc := st.acc ++ [y] } (y :: ys) := by
          simp [clipSegs, hstep, exceptBind_ok]
      _ = Except.ok { st with acc := st.acc ++ y :: ys } := by
          rw [ih y { st with acc := st.acc ++ [y] } htail (by simp)]
          simp

/-- Clipping one all-inside chain of length ≥ 2 emits it verbatim as a
closed coastline, touching neither the open coastlines nor the map. -/
theorem clipChain_inside (md : MapDimensions) (closed : List Line)
    (openC : List (Nat × Line)) (imap : IntersectionMap) (n : Nat) (c : Line)
    (h2 : 2 ≤ c.length) (hin : ∀ p ∈ c, is_inside_map p md = true) :
    clipChain md closed openC imap n c = Except.ok (closed ++ [c], openC, imap, n + 1) := by
  match c, h2 with
  | p :: q :: rest, _ =>
    have hp : is_inside_map p md = true := hin p (by simp)
    have hq : is_inside_map q md = true := hin q (by simp)
    have hfirst : clipSeg md (initChainState n imap) p q = Except.ok { initChainState n imap with acc := [p, q] } := by
      simp [clipSeg, initChainState, find_segment_inside p q md hp hq, exceptBind_ok, exceptPure]
    have htail : ∀ x ∈ q :: rest, is_inside_map x md = true := by
      intro x hx
      exact hin x (List.mem_cons_of_mem p hx)
    have hsegs : clipSegs md (initChainState n imap) (p :: q :: rest) = Except.ok { initChainState n imap with acc := p :: q :: rest } := by
      calc clipSegs md (initChainState n imap) (p :: q :: rest)
          = clipSegs md { initChainState n imap with acc := [p, q] } (q :: rest) := by
            simp [clipSegs, hfirst, exceptBind_ok]
        _ = Except.ok { initChainState n imap with acc := p :: q :: rest } := by
            rw [clipSegs_inside_cons md rest q _ htail (by simp [initChainState])]
            simp [initChainState]
    simp only [clipChain]
    rw [if_neg (by omega)]
    rw [hsegs, exceptBind_ok]
    simp [finishChain, initChainState, exceptBind_ok, exceptPure]

/-- The chain loop over all-inside chains of length ≥ 2 appends them all to
the closed list in order. -/
theorem clipChains_inside (md : MapDimensions) :
    ∀ (chains : List Line) (closed : List Line) (openC : List (Nat × Line))
      (imap : IntersectionMap) (n : Nat),
      (∀ c ∈ chains, 2 ≤ c.length) →
      (∀ c ∈ chains, ∀ p ∈ c, is_inside_map p md = true) →
      clipChains md closed openC imap n chains =
        Except.ok (closed ++ chains, openC, imap, n + chains.length) := by
  intro chains
  induction chains with
  | nil =>
    intro closed openC imap n _ _
    simp [clipChains]
  | cons c cs ih =>
    intro closed openC imap n hlen hin
    have hstep := clipChain_inside md closed openC imap n c (hlen c (by simp))
      (hin c (by simp))
    have htail₁ : ∀ x ∈ cs, 2 ≤ x.length := fun x hx => hlen x (List.mem_cons_of_mem c hx)
    have htail₂ : ∀ x ∈ cs, ∀ p ∈ x, is_inside_map p md = true :=
      fun x hx => hin x (List.mem_cons_of_mem c hx)
    calc clipChains md closed openC imap n (c :: cs)
        = clipChains md (closed ++ [c]) openC imap (n + 1) cs := by
          simp [clipChains, hstep, exceptBind_ok]
      _ = Except.ok (closed ++ c :: cs, openC, imap, n + (c :: cs).length) := by
          rw [ih (closed ++ [c]) openC imap (n + 1) htail₁ htail₂]
          simp [Nat.add_comm 1, Nat.add_assoc]

/-- C9.  If every input chain has at least two points (as the assembler
guarantees), is closed, and lies entirely inside the rectangle (boundary
included), the clipper returns the chains verbatim, in order, as closed
coastlines, publishes no open coastline, and leaves the intersection map
empty on all four sides.  (The code reaches this without ever testing
closedness: any all-inside chain is emitted verbatim.) -/
theorem C9_closed_inside (chains : List Line) (md : MapDimensions) (n : Nat)
    (hlen : ∀ c ∈ chains, 2 ≤ c.length)
    (hclosed : ∀ c ∈ chains, c.head? = c.getLast?)
    (hin : ∀ c ∈ chains, ∀ p ∈ c, is_inside_map p md = true) :
    bound_and_sort_complete_coastlines emptyIntersectionMap chains md n =
      Except.ok (chains, [], emptyIntersectionMap, n + chains.length) := by
  have h := clipChains_inside md chains [] [] emptyIntersectionMap n hlen hin
  rw [List.nil_append] at h
  simp only [bound_and_sort_complete_coastlines]
  rw [h, exceptBind_ok]
  rfl

/-- C9, witness: the spec's single-inside-island scenario. -/
theorem C9_closed_inside_witness :
    bound_and_sort_complete_coastlines emptyIntersectionMap [c9chain] md0 0 =
      Except.ok ([c9chain], [], emptyIntersectionMap, 1) :=
  C9_closed_inside [c9chain] md0 0 (by decide) (by decide) (by decide)

/-! ### Claim C8 -/

/-- C8.  Whenever the walker's cursor runs past the last event of a side
while looking for an exit with no nested entrance pending, the side's
clockwise-next corner is prepended to the accumulator (through
`insertFront`, i.e. Python `insert(0, ...)`) and the cursor moves to index
0 of the next side; the corner table maps TOP ↦ (max_lon, max_lat),
RIGHT ↦ (max_lon, min_lat), BOTTOM ↦ (min_lon, min_lat),
LEFT ↦ (min_lon, max_lat).  Concretely, the chain entering TOP at (8,10)
and leaving through RIGHT at (10,3) in the rectangle [0,10] × [0,10]
closes into the single polygon `[(10,3),(10,10),(8,10),(8,3),(10,3)]`,
which contains the corner vertex (10,10). -/
theorem C8_corner :
    (∀ (md : MapDimensions) (imap : IntersectionMap) (st : WalkState),
        (imap.get st.side).length ≤ st.idx →
        st.looking_exit = true →
        st.entranceId = none →
        walkStep md imap st =
          Except.ok { st.insertFront (side_clockwise_corners md st.side) with idx := 0, side := NEXT_SIDE_MAP st.side }) ∧
    (∀ md, side_clockwise_corners md Side.TOP = (md.max_lon, md.max_lat) ∧
           side_clockwise_corners md Side.RIGHT = (md.max_lon, md.min_lat) ∧
           side_clockwise_corners md Side.BOTTOM = (md.min_lon, md.min_lat) ∧
           side_clockwise_corners md Side.LEFT = (md.min_lon, md.max_lat)) ∧
    bound_and_sort_complete_coastlines emptyIntersectionMap [c8chain] md0 0 =
      Except.ok ([], c8open, c8map, 2) ∧
    find_intersection_map_starting_point c8map = some (Side.TOP, 0) ∧
    join_open_coastlines 10 100 c8open c8map (Side.TOP, 0) md0 =
      some (Except.ok ([[(10, 3), (10, 10), (8, 10), (8, 3), (10, 3)]],
                       [(0, [(10, 3), (10, 10), (8, 10), (8, 3), (10, 3)])])) ∧
    ((10 : ℚ), (10 : ℚ)) ∈ [((10 : ℚ), (3 : ℚ)), (10, 10), (8, 10), (8, 3), (10, 3)] := by
  refine ⟨?_, ?_, rfl, rfl, rfl, by decide⟩
  · intro md imap st h1 h2 h3
    have hnone : (imap.get st.side)[st.idx]? = none := List.getElem?_eq_none h1
    simp [walkStep, WalkState.insertFront, hnone, h2, h3]
  · intro md
    exact ⟨rfl, rfl, rfl, rfl⟩

/-- C8, witness: the corner-prepending step applied at the end of TOP in
the concrete corner-wrap scenario. -/
theorem C8_corner_witness :
    walkStep md0 c8map { looking_exit := true, side := Side.TOP, idx := 1, openC := c8open, accRef := some 0, acc := [(8, 10), (8, 3), (10, 3)], exitId := some 0, entranceId := none, results := [], skipped := [], curSkipped := emptyIntersectionMap, curSkippedUsed := false } =
      Except.ok { looking_exit := true, side := Side.RIGHT, idx := 0, openC := [(0, [(10, 10), (8, 10), (8, 3), (10, 3)])], accRef := some 0, acc := [(10, 10), (8, 10), (8, 3), (10, 3)], exitId := some 0, entranceId := none, results := [], skipped := [], curSkipped := emptyIntersectionMap, curSkippedUsed := false } :=
  C8_corner.1 md0 c8map
    { looking_exit := true, side := Side.TOP, idx := 1, openC := c8open, accRef := some 0, acc := [(8, 10), (8, 3), (10, 3)], exitId := some 0, entranceId := none, results := [], skipped := [], curSkipped := emptyIntersectionMap, curSkippedUsed := false }
    (by decide) rfl rfl

/-! ### Claim C10 -/

/-- Rank of a side in the fixed candidate order TOP, RIGHT, BOTTOM, LEFT. -/
def sideRank : Side → Nat
  | Side.TOP => 0
  | Side.RIGHT => 1
  | Side.BOTTOM => 2
  | Side.LEFT => 3

/-- The running best of the Python selection loop
`intersections[distances.index(min(distances))]`: fold over the tail,
replacing the best only on a strictly smaller squared distance. -/
def pickBest (p1 : Coord) (b : Intersection) (l : List Intersection) : Intersection :=
  l.foldl (fun best c => if sqDistFrom p1 c < sqDistFrom p1 best then c else best) b

/-- On a non-empty list, `pickFirstMin` is the fold `pickBest` seeded with
the head. -/
theorem pickFirstMin_cons (p1 : Coord) (x : Intersection) (xs : List Intersection) :
    pickFirstMin p1 (x :: xs) = some (pickBest p1 x xs) := rfl

/-- The selection fold returns either the seed, with nothing in the list
strictly beating it, or the first element of the list strictly below the
seed and minimal among the rest. -/
theorem pickBest_split (p1 : Coord) :
    ∀ (l : List Intersection) (b : Intersection),
      (pickBest p1 b l = b ∧ ∀ j ∈ l, sqDistFrom p1 b ≤ sqDistFrom p1 j) ∨
      (∃ l₁ l₂, l = l₁ ++ pickBest p1 b l :: l₂ ∧
        sqDistFrom p1 (pickBest p1 b l) < sqDistFrom p1 b ∧
        (∀ j ∈ l₁, sqDistFrom p1 (pickBest p1 b l) < sqDistFrom p1 j) ∧
        (∀ j ∈ l₂, sqDistFrom p1 (pickBest p1 b l) ≤ sqDistFrom p1 j)) := by
  intro l
  induction l with
  | nil =>
    intro b
    left
    exact ⟨rfl, by simp⟩
  | cons c cs ih =>
    intro b
    by_cases hlt : sqDistFrom p1 c < sqDistFrom p1 b
    · have hstep : pickBest p1 b (c :: cs) = pickBest p1 c cs := by
        simp [pickBest, hlt]
      rw [hstep]
      rcases ih c with ⟨heq, hall⟩ | ⟨l₁, l₂, hsplit, hbeat, hstrict, hrest⟩
      · right
        refine ⟨[], cs, ?_, ?_, by simp, ?_⟩
        · rw [heq]
          simp
        · rw [heq]
          exact hlt
        · rw [heq]
          exact hall
      · right
        refine ⟨c :: l₁, l₂, ?_, hbeat.trans hlt, ?_, hrest⟩
        · rw [List.cons_append, ← hsplit]
        · intro j hj
          rcases List.mem_cons.mp hj with rfl | hj
          · exact hbeat
          · exact hstrict j hj
    · have hstep : pickBest p1 b (c :: cs) = pickBest p1 b cs := by
        simp [pickBest, hlt]
      rw [hstep]
      rcases ih b with ⟨heq, hall⟩ | ⟨l₁, l₂, hsplit, hbeat, hstrict, hrest⟩
      · left
        refine ⟨heq, ?_⟩
        intro j hj
        rcases List.mem_cons.mp hj with rfl | hj
        · exact le_of_not_lt hlt
        · exact hall j hj
      · right
        refine ⟨c :: l₁, l₂, ?_, hbeat, ?_, hrest⟩
        · rw [List.cons_append, ← hsplit]
        · intro j hj
          rcases List.mem_cons.mp hj with rfl | hj
          · exact hbeat.trans_le (le_of_not_lt hlt)
          · exact hstrict j hj

/-- `pickFirstMin` splits its input around the returned candidate: every
earlier candidate is strictly farther from `p1`, and no candidate is
closer, so the result is the closest candidate with ties broken by list
position. -/
theorem pickFirstMin_split (p1 : Coord) (l : List Intersection) (r : Intersection)
    (h : pickFirstMin p1 l = some r) :
    ∃ l₁ l₂, l = l₁ ++ r :: l₂ ∧
      (∀ j ∈ l₁, sqDistFrom p1 r < sqDistFrom p1 j) ∧
      (∀ j ∈ l₂, sqDistFrom p1 r ≤ sqDistFrom p1 j) := by
  match l, h with
  | x :: xs, h =>
    have hr : pickBest p1 x xs = r := by
      have := (pickFirstMin_cons p1 x xs).symm.trans h
      simpa using this
    rcases pickBest_split p1 xs x with ⟨heq, hall⟩ | ⟨l₁, l₂, hsplit, hbeat, hstrict, hrest⟩
    · refine ⟨[], xs, ?_, by simp, ?_⟩
      · rw [← hr, heq]
        simp
      · rw [← hr, heq]
        exact hall
    · rw [hr] at hsplit hbeat hstrict hrest
      refine ⟨x :: l₁, l₂, ?_, ?_, hrest⟩
      · rw [List.cons_append, ← hsplit]
      · intro j hj
        rcases List.mem_cons.mp hj with rfl | hj
        · exact hbeat
        · exact hstrict j hj

/-- `pickFirstMin` fails only on the empty candidate list. -/
theorem pickFirstMin_eq_none (p1 : Coord) (l : List Intersection) :
    pickFirstMin p1 l = none ↔ l = [] := by
  cases l <;> simp [pickFirstMin]

/-- Every TOP candidate carries side TOP. -/
theorem topCandidate_side (p1 p2 : Coord) (md : MapDimensions) :
    ∀ i ∈ topCandidate p1 p2 md, i.side = Side.TOP := by
  intro i hi
  unfold topCandidate at hi
  split_ifs at hi <;> simp_all

/-- Every RIGHT candidate carries side RIGHT. -/
theorem rightCandidate_side (p1 p2 : Coord) (md : MapDimensions) :
    ∀ i ∈ rightCandidate p1 p2 md, i.side = Side.RIGHT := by
  intro i hi
  unfold rightCandidate at hi
  split_ifs at hi <;> simp_all

/-- Every BOTTOM candidate carries side BOTTOM. -/
theorem bottomCandidate_side (p1 p2 : Coord) (md : MapDimensions) :
    ∀ i ∈ bottomCandidate p1 p2 md, i.side = Side.BOTTOM := by
  intro i hi
  unfold bottomCandidate at hi
  split_ifs at hi <;> simp_all

/-- Every LEFT candidate carries side LEFT. -/
theorem leftCandidate_side (p1 p2 : Coord) (md : MapDimensions) :
    ∀ i ∈ leftCandidate p1 p2 md, i.side = Side.LEFT := by
  intro i hi
  unfold leftCandidate at hi
  split_ifs at hi <;> simp_all

/-- A list with at most one element is vacuously pairwise-related. -/
theorem pairwise_of_length_le_one {α : Type} {R : α → α → Prop} :
    ∀ {l : List α}, l.length ≤ 1 → List.Pairwise R l
  | [], _ => List.Pairwise.nil
  | [_], _ => by simp
  | _ :: _ :: _, h => by simp at h

/-- Each side contributes at most one candidate. -/
theorem topCandidate_length (p1 p2 : Coord) (md : MapDimensions) :
    (topCandidate p1 p2 md).length ≤ 1 := by
  simp only [topCandidate]
  split_ifs <;> simp

/-- Each side contributes at most one candidate. -/
theorem rightCandidate_length (p1 p2 : Coord) (md : MapDimensions) :
    (rightCandidate p1 p2 md).length ≤ 1 := by
  simp only [rightCandidate]
  split_ifs <;> simp

/-- Each side contributes at most one candidate. -/
theorem bottomCandidate_length (p1 p2 : Coord) (md : MapDimensions) :
    (bottomCandidate p1 p2 md).length ≤ 1 := by
  simp only [bottomCandidate]
  split_ifs <;> simp

/-- Each side contributes at most one candidate. -/
theorem leftCandidate_length (p1 p2 : Coord) (md : MapDimensions) :
    (leftCandidate p1 p2 md).length ≤ 1 := by
  simp only [leftCandidate]
  split_ifs <;> simp

/-- The candidate list is strictly ordered by the side order TOP, RIGHT,
BOTTOM, LEFT, so first-position tie-breaking is side-order tie-breaking. -/
theorem boundaryCandidates_sides (p1 p2 : Coord) (md : MapDimensions) :
    List.Pairwise (fun a b => sideRank a.side < sideRank b.side)
      (boundaryCandidates p1 p2 md) := by
  unfold boundaryCandidates
  rw [List.append_assoc, List.append_assoc]
  refine List.pairwise_append.mpr
    ⟨pairwise_of_length_le_one (topCandidate_length p1 p2 md),
     List.pairwise_append.mpr
       ⟨pairwise_of_length_le_one (rightCandidate_length p1 p2 md),
        List.pairwise_append.mpr
          ⟨pairwise_of_length_le_one (bottomCandidate_length p1 p2 md),
           pairwise_of_length_le_one (leftCandidate_length p1 p2 md), ?_⟩, ?_⟩, ?_⟩
  · intro a ha b hb
    rw [bottomCandidate_side p1 p2 md a ha, leftCandidate_side p1 p2 md b hb]
    decide
  · intro a ha b hb
    rw [rightCandidate_side p1 p2 md a ha]
    rcases List.mem_append.mp hb with hb | hb
    · rw [bottomCandidate_side p1 p2 md b hb]
      decide
    · rw [leftCandidate_side p1 p2 md b hb]
      decide
  · intro a ha b hb
    rw [topCandidate_side p1 p2 md a ha]
    rcases List.mem_append.mp hb with hb | hb
    · rw [rightCandidate_side p1 p2 md b hb]
      decide
    rcases List.mem_append.mp hb with hb | hb
    · rw [bottomCandidate_side p1 p2 md b hb]
      decide
    · rw [leftCandidate_side p1 p2 md b hb]
      decide

/-- C10.  For a segment with exactly one endpoint inside the rectangle
(boundary inclusive), the crossing computation fails with
`MalformedGeometry` exactly when no side candidate is accepted, and
otherwise returns a candidate that attains the minimal squared distance
from `p1`, with every earlier candidate — earlier meaning smaller in the
side order TOP, RIGHT, BOTTOM, LEFT, by `boundaryCandidates_sides` —
strictly farther. -/
theorem C10_closest (p1 p2 : Coord) (md : MapDimensions)
    (h : is_inside_map p1 md ≠ is_inside_map p2 md) :
    (find_segment_intersection_with_boundary p1 p2 md =
        Except.error CoastErr.MalformedGeometry ↔ boundaryCandidates p1 p2 md = []) ∧
    (∀ i, find_segment_intersection_with_boundary p1 p2 md = Except.ok (SegClass.cross i) →
      ∃ l₁ l₂, boundaryCandidates p1 p2 md = l₁ ++ i :: l₂ ∧
        (∀ j ∈ l₁, sqDistFrom p1 i < sqDistFrom p1 j) ∧
        (∀ j ∈ l₂, sqDistFrom p1 i ≤ sqDistFrom p1 j)) ∧
    List.Pairwise (fun a b => sideRank a.side < sideRank b.side)
      (boundaryCandidates p1 p2 md) := by
  have hbranch : find_segment_intersection_with_boundary p1 p2 md =
      (match pickFirstMin p1 (boundaryCandidates p1 p2 md) with
       | some i => Except.ok (SegClass.cross i)
       | none => Except.error CoastErr.MalformedGeometry) := by
    cases ha : is_inside_map p1 md <;> cases hb : is_inside_map p2 md <;>
      simp_all [find_segment_intersection_with_boundary]
  refine ⟨?_, ?_, boundaryCandidates_sides p1 p2 md⟩
  · rw [hbranch]
    cases hpick : pickFirstMin p1 (boundaryCandidates p1 p2 md)
    · simpa using (pickFirstMin_eq_none p1 (boundaryCandidates p1 p2 md)).mp hpick
    · have hne := (pickFirstMin_eq_none p1 (boundaryCandidates p1 p2 md)).not
      constructor
      · intro hcontra
        exact absurd hcontra (by simp)
      · intro hnil
        rw [hnil] at hpick
        exact absurd hpick (by simp [pickFirstMin])
  · intro i hi
    rw [hbranch] at hi
    cases hpick : pickFirstMin p1 (boundaryCandidates p1 p2 md) with
    | none => rw [hpick] at hi; exact absurd hi (by simp)
    | some r =>
      rw [hpick] at hi
      have : r = i := by simpa using hi
      subst this
      exact pickFirstMin_split p1 (boundaryCandidates p1 p2 md) r hpick

/-- C10, witness: the theorem applied to the segment from (5,5) inside to
(5,12) strictly outside in the rectangle [0,10] × [0,10]. -/
theorem C10_closest_witness :
    is_inside_map (5, 5) md0 ≠ is_inside_map (5, 12) md0 ∧
    ((find_segment_intersection_with_boundary (5, 5) (5, 12) md0 =
        Except.error CoastErr.MalformedGeometry ↔ boundaryCandidates (5, 5) (5, 12) md0 = []) ∧
    (∀ i, find_segment_intersection_with_boundary (5, 5) (5, 12) md0 = Except.ok (SegClass.cross i) →
      ∃ l₁ l₂, boundaryCandidates (5, 5) (5, 12) md0 = l₁ ++ i :: l₂ ∧
        (∀ j ∈ l₁, sqDistFrom (5, 5) i < sqDistFrom (5, 5) j) ∧
        (∀ j ∈ l₂, sqDistFrom (5, 5) i ≤ sqDistFrom (5, 5) j)) ∧
    List.Pairwise (fun a b => sideRank a.side < sideRank b.side)
      (boundaryCandidates (5, 5) (5, 12) md0)) :=
  ⟨by decide, C10_closest (5, 5) (5, 12) md0 (by decide)⟩


/-! ### Claim C5 -/

/-- Relation between two contents of `open_coastlines`: every stored list
survives with its old value as a suffix (the walker only ever prepends
through the alias). -/
def OCGrows (oc oc' : List (Nat × Line)) : Prop :=
  ∀ id l, lookupOC oc id = some l → ∃ l', lookupOC oc' id = some l' ∧ l.IsSuffix l'

/-- The accumulator alias invariant: when `accRef` names a stored list,
that stored list currently equals the accumulator. -/
def AccInv (st : WalkState) : Prop :=
  ∀ id, st.accRef = some id → lookupOC st.openC id = some st.acc

/-- `OCGrows` is reflexive. -/
theorem ocGrows_refl (oc : List (Nat × Line)) : OCGrows oc oc :=
  fun _ l h => ⟨l, h, List.suffix_refl l⟩

/-- `OCGrows` is transitive. -/
theorem ocGrows_trans {a b c : List (Nat × Line)} (h₁ : OCGrows a b) (h₂ : OCGrows b c) :
    OCGrows a c := by
  intro id l h
  obtain ⟨l', hl', hs'⟩ := h₁ id l h
  obtain ⟨l'', hl'', hs''⟩ := h₂ id l' hl'
  exact ⟨l'', hl'', hs'.trans hs''⟩

/-- Updating the entry actually present under `id` preserves lookups of
other ids. -/
theorem lookupOC_updateOC_ne (oc : List (Nat × Line)) (id id' : Nat) (l : Line)
    (h : id' ≠ id) : lookupOC (updateOC oc id l) id' = lookupOC oc id' := by
  induction oc with
  | nil => rfl
  | cons p rest ih =>
    obtain ⟨k, v⟩ := p
    by_cases hk : k = id
    · subst hk
      simp [updateOC, lookupOC, Ne.symm h, ih]
    · simp [updateOC, lookupOC, hk, ih]

/-- Updating an entry that is present makes the new value its lookup. -/
theorem lookupOC_updateOC_self (oc : List (Nat × Line)) (id : Nat) (l l₀ : Line)
    (h : lookupOC oc id = some l₀) : lookupOC (updateOC oc id l) id = some l := by
  induction oc with
  | nil => simp [lookupOC] at h
  | cons p rest ih =>
    obtain ⟨k, v⟩ := p
    by_cases hk : k = id
    · subst hk
      simp [updateOC, lookupOC]
    · simp only [lookupOC, if_neg hk] at h
      simp [updateOC, lookupOC, hk, ih h]

/-- `insertFront` preserves the alias invariant and only grows the stored
lists. -/
theorem insertFront_grows (st : WalkState) (x : Coord) (hinv : AccInv st) :
    AccInv (st.insertFront x) ∧ OCGrows st.openC (st.insertFront x).openC := by
  cases href : st.accRef with
  | none =>
    constructor
    · intro id hid
      simp [WalkState.insertFront, href] at hid
    · simp only [WalkState.insertFront, href]
      exact ocGrows_refl st.openC
  | some rid =>
    have hl := hinv rid href
    constructor
    · intro id hid
      have hid' : id = rid := by
        simpa [WalkState.insertFront, href] using hid.symm
      subst hid'
      simp only [WalkState.insertFront, href]
      exact lookupOC_updateOC_self st.openC id (x :: st.acc) st.acc hl
    · simp only [WalkState.insertFront, href]
      intro id l h
      by_cases hid : id = rid
      · subst hid
        rw [hl] at h
        obtain rfl : st.acc = l := by simpa using h
        exact ⟨x :: st.acc, lookupOC_updateOC_self st.openC id (x :: st.acc) st.acc hl,
          List.suffix_cons x st.acc⟩
      · exact ⟨l, by rw [lookupOC_updateOC_ne st.openC rid id (x :: st.acc) hid]; exact h,
          List.suffix_refl l⟩

/-- `walkStep` preserves the accumulator alias invariant and only grows
the stored lists: every mutation is an `insert(0, ...)` through the alias.
-/
theorem walkStep_grows (md : MapDimensions) (imap : IntersectionMap) (st st' : WalkState)
    (hinv : AccInv st) (h : walkStep md imap st = Except.ok st') :
    AccInv st' ∧ OCGrows st.openC st'.openC := by
  unfold walkStep at h
  cases hget : (imap.get st.side)[st.idx]? with
  | none =>
    simp only [hget] at h
    by_cases hc : (st.looking_exit && decide (st.entranceId = none)) = true
    · simp only [if_pos hc, Except.ok.injEq] at h
      subst h
      have hg := insertFront_grows st (side_clockwise_corners md st.side) hinv
      exact ⟨fun id hid => hg.1 id hid, hg.2⟩
    · simp only [if_neg hc, Except.ok.injEq] at h
      subst h
      exact ⟨fun id hid => hinv id hid, ocGrows_refl st.openC⟩
  | some e =>
    simp only [hget] at h
    cases hchain : lookupOC st.openC e.bounded_coastline_id with
    | none =>
      simp only [hchain] at h
      exact Except.noConfusion h
    | some chain =>
      simp only [hchain] at h
      by_cases hlook : st.looking_exit = true
      · rw [if_pos hlook] at h
        by_cases hent : e.is_entering = true
        · rw [if_pos hent] at h
          simp at h
        · rw [if_neg hent] at h
          cases hexit : st.exitId with
          | none =>
            simp only [hexit] at h
            exact Except.noConfusion h
          | some xid =>
            simp only [hexit] at h
            by_cases hid : e.bounded_coastline_id = xid
            · rw [if_pos hid] at h
              cases hlast : chain.getLast? with
              | none =>
                simp only [hlast] at h
                exact Except.noConfusion h
              | some lastPt =>
                simp only [hlast, Except.ok.injEq] at h
                subst h
                have hg := insertFront_grows st lastPt hinv
                refine ⟨?_, hg.2⟩
                intro i hi
                simp at hi
            · rw [if_neg hid] at h
              cases hentr : st.entranceId with
              | none =>
                simp only [hentr, Except.ok.injEq] at h
                subst h
                refine ⟨?_, ocGrows_refl st.openC⟩
                intro i hi
                simp at hi
              | some _ =>
                simp only [hentr] at h
                exact Except.noConfusion h
      · rw [if_neg hlook] at h
        by_cases hent : e.is_entering = true
        · rw [if_neg (by simp [hent])] at h
          cases hexit : st.exitId with
          | none =>
            simp only [hexit, Except.ok.injEq] at h
            subst h
            refine ⟨?_, ocGrows_refl st.openC⟩
            intro i hi
            simp at hi
            subst hi
            exact hchain
          | some xid =>
            simp only [hexit] at h
            by_cases hidm : some e.bounded_coastline_id = st.entranceId
            · rw [if_pos hidm] at h
              by_cases hused : st.curSkippedUsed = true
              · simp only [if_pos hused, Except.ok.injEq] at h
                subst h
                exact ⟨fun i hi => hinv i hi, ocGrows_refl st.openC⟩
              · simp only [if_neg hused, Except.ok.injEq] at h
                subst h
                exact ⟨fun i hi => hinv i hi, ocGrows_refl st.openC⟩
            · rw [if_neg hidm] at h
              simp only [Except.ok.injEq] at h
              subst h
              exact ⟨fun i hi => hinv i hi, ocGrows_refl st.openC⟩
        · rw [if_pos (by simp [hent])] at h
          exact Except.noConfusion h

/-- The walker's while-loop preserves the alias invariant and only grows
the stored lists. -/
theorem walkLoop_grows (md : MapDimensions) (imap : IntersectionMap) (start : Side × Nat) :
    ∀ (fuel : Nat) (st st' : WalkState), AccInv st →
      walkLoop fuel md imap start st = some (Except.ok st') →
      OCGrows st.openC st'.openC ∧ AccInv st' := by
  intro fuel
  induction fuel with
  | zero =>
    intro st st' _ h
    simp [walkLoop] at h
  | succ n ih =>
    intro st st' hinv h
    rw [walkLoop] at h
    by_cases hc : st.side = start.1 ∧ st.idx = start.2
    · rw [if_pos hc] at h
      obtain rfl : st = st' := by simpa using h
      exact ⟨ocGrows_refl st.openC, hinv⟩
    · rw [if_neg hc] at h
      cases hstep : walkStep md imap st with
      | error e =>
        rw [hstep] at h
        simp at h
      | ok st₁ =>
        rw [hstep] at h
        have hg := walkStep_grows md imap st st₁ hinv hstep
        have hg' := ih st₁ st' hg.1 h
        exact ⟨ocGrows_trans hg.2 hg'.1, hg'.2⟩

/-- The walker initialisation returns the caller's `open_coastlines` with
the root chain correctly aliased. -/
theorem joinInit_openC (oc : List (Nat × Line)) (imap : IntersectionMap) (start : Side × Nat)
    (st0 : WalkState) (h : joinInit oc imap start = Except.ok st0) :
    st0.openC = oc ∧ AccInv st0 := by
  unfold joinInit at h
  cases hget : (imap.get start.1)[start.2]? with
  | none =>
    simp only [hget] at h
    exact Except.noConfusion h
  | some ev =>
    simp only [hget] at h
    cases hlook : lookupOC oc ev.bounded_coastline_id with
    | none =>
      simp only [hlook] at h
      exact Except.noConfusion h
    | some chain =>
      simp only [hlook, Except.ok.injEq] at h
      subst h
      refine ⟨rfl, ?_⟩
      intro id hid
      obtain rfl : ev.bounded_coastline_id = id := by simpa using hid
      exact hlook

/-- The recursion loop over deferred maps only grows the stored lists,
provided each recursive call does. -/
theorem joinSkipped_grows
    (join : List (Nat × Line) → IntersectionMap → Side × Nat → MapDimensions →
      Option (Except CoastErr (List Line × List (Nat × Line))))
    (hjoin : ∀ oc m sp md res oc', join oc m sp md = some (Except.ok (res, oc')) →
      OCGrows oc oc') :
    ∀ (ms : List IntersectionMap) (res : List Line) (oc : List (Nat × Line))
      (md : MapDimensions) (res' : List Line) (oc' : List (Nat × Line)),
      joinSkipped join ms res oc md = some (Except.ok (res', oc')) → OCGrows oc oc' := by
  intro ms
  induction ms with
  | nil =>
    intro res oc md res' oc' h
    have h' : res = res' ∧ oc = oc' := by simpa [joinSkipped] using h
    exact h'.2 ▸ ocGrows_refl oc
  | cons m rest ih =>
    intro res oc md res' oc' h
    rw [joinSkipped] at h
    cases hsp : find_intersection_map_starting_point m with
    | none =>
      simp only [hsp] at h
      exact ih res oc md res' oc' h
    | some sp =>
      simp only [hsp] at h
      cases hrec : join oc m sp md with
      | none =>
        simp only [hrec] at h
        exact Option.noConfusion h
      | some r =>
        simp only [hrec] at h
        cases r with
        | error e =>
          simp at h
        | ok p =>
          obtain ⟨r₁, oc₁⟩ := p
          have h₁ := hjoin oc m sp md r₁ oc₁ hrec
          exact ocGrows_trans h₁ (ih (res ++ r₁) oc₁ md res' oc' h)

/-- C5, amended.  `join_open_coastlines` may mutate the coordinate lists
stored in its `open_coastlines` argument — the accumulator aliases the
current root chain, so corner insertions and the closing exit point are
prepended into the stored list — but every mutation is a prepend: after
the walker returns, each stored list still has the sequence the clipper
published for that id as a suffix. -/
theorem C5_amended :
    ∀ (recFuel loopFuel : Nat) (oc : List (Nat × Line)) (imap : IntersectionMap)
      (start : Side × Nat) (md : MapDimensions) (res : List Line) (oc' : List (Nat × Line)),
      join_open_coastlines recFuel loopFuel oc imap start md = some (Except.ok (res, oc')) →
      ∀ id l, lookupOC oc id = some l → ∃ l', lookupOC oc' id = some l' ∧ l.IsSuffix l' := by
  intro recFuel
  induction recFuel with
  | zero =>
    intro loopFuel oc imap start md res oc' h
    simp [join_open_coastlines] at h
  | succ n ih =>
    intro loopFuel oc imap start md res oc' h
    rw [join_open_coastlines] at h
    cases hinit : joinInit oc imap start with
    | error e =>
      simp only [hinit] at h
      simp at h
    | ok st0 =>
      simp only [hinit] at h
      obtain ⟨hoc0, hinv0⟩ := joinInit_openC oc imap start st0 hinit
      cases hloop : walkLoop loopFuel md imap start st0 with
      | none =>
        simp only [hloop] at h
        exact Option.noConfusion h
      | some r =>
        simp only [hloop] at h
        cases r with
        | error e =>
          simp at h
        | ok st =>
          have hg := walkLoop_grows md imap start loopFuel st0 st hinv0 hloop
          have hrec : ∀ oc₁ m sp md₁ res₁ oc₂,
              join_open_coastlines n loopFuel oc₁ m sp md₁ = some (Except.ok (res₁, oc₂)) →
              OCGrows oc₁ oc₂ := by
            intro oc₁ m sp md₁ res₁ oc₂ hr
            exact ih loopFuel oc₁ m sp md₁ res₁ oc₂ hr
          have hsk := joinSkipped_grows (join_open_coastlines n loopFuel) hrec
            st.skipped st.results st.openC md res oc' h
          rw [hoc0] at hg
          exact ocGrows_trans hg.1 hsk

/-- C5, counterexample.  On the corner-wrap scenario the walker returns
with `open_coastlines[0]` mutated through the alias — it now equals the
published polygon, with the corner (10,10) and the exit point (10,3)
prepended — not the clipper-published `[(8,10),(8,3),(10,3)]`. -/
theorem C5_counterexample :
    join_open_coastlines 10 100 c8open c8map (Side.TOP, 0) md0 =
      some (Except.ok ([[(10, 3), (10, 10), (8, 10), (8, 3), (10, 3)]],
                       [(0, [(10, 3), (10, 10), (8, 10), (8, 3), (10, 3)])])) ∧
    lookupOC c8open 0 = some [(8, 10), (8, 3), (10, 3)] ∧
    ([(10, 3), (10, 10), (8, 10), (8, 3), (10, 3)] : Line) ≠ [(8, 10), (8, 3), (10, 3)] :=
  ⟨rfl, rfl, by decide⟩

/-- C5, witness: the amended theorem applied to the corner-wrap scenario:
the published chain survives as a suffix of the mutated stored list. -/
theorem C5_amended_witness :
    ∃ l', lookupOC [(0, [(10, 3), (10, 10), (8, 10), (8, 3), (10, 3)])] 0 = some l' ∧
      List.IsSuffix [((8 : ℚ), (10 : ℚ)), (8, 3), (10, 3)] l' :=
  C5_amended 10 100 c8open c8map (Side.TOP, 0) md0
    [[(10, 3), (10, 10), (8, 10), (8, 3), (10, 3)]]
    [(0, [(10, 3), (10, 10), (8, 10), (8, 3), (10, 3)])] rfl 0
    [(8, 10), (8, 3), (10, 3)] rfl

/-! ### Claim C7 (amended) -/

/-- Renaming does not change counts for ids other than `old` and `new`. -/
theorem countP_rename_other (old new id : Nat) (q : Bool → Bool)
    (h1 : id ≠ old) (h2 : id ≠ new) :
    ∀ l : List IntersectionWithId,
      (l.map (renameEvent old new)).countP
          (fun e => decide (e.bounded_coastline_id = id) && q e.is_entering) =
        l.countP (fun e => decide (e.bounded_coastline_id = id) && q e.is_entering) := by
  intro l
  induction l with
  | nil => rfl
  | cons e rest ih =>
    by_cases he : e.bounded_coastline_id = old
    · simp [renameEvent, he, List.countP_cons, ih, Ne.symm h1, Ne.symm h2]
    · simp [renameEvent, he, List.countP_cons, ih]

/-- After renaming, no event carries `old` any more. -/
theorem countP_rename_old (old new : Nat) (q : Bool → Bool) (h : old ≠ new) :
    ∀ l : List IntersectionWithId,
      (l.map (renameEvent old new)).countP
          (fun e => decide (e.bounded_coastline_id = old) && q e.is_entering) = 0 := by
  intro l
  induction l with
  | nil => rfl
  | cons e rest ih =>
    by_cases he : e.bounded_coastline_id = old
    · simp [renameEvent, he, List.countP_cons, ih, Ne.symm h]
    · simp [renameEvent, he, List.countP_cons, ih]

/-- After renaming, `new` carries its own events plus the renamed ones. -/
theorem countP_rename_new (old new : Nat) (q : Bool → Bool) (h : old ≠ new) :
    ∀ l : List IntersectionWithId,
      (l.map (renameEvent old new)).countP
          (fun e => decide (e.bounded_coastline_id = new) && q e.is_entering) =
        l.countP (fun e => decide (e.bounded_coastline_id = new) && q e.is_entering) +
          l.countP (fun e => decide (e.bounded_coastline_id = old) && q e.is_entering) := by
  intro l
  induction l with
  | nil => rfl
  | cons e rest ih =>
    by_cases he : e.bounded_coastline_id = old
    · simp only [List.map_cons, List.countP_cons, renameEvent, he, if_true, if_pos rfl]
      simp [h, Ne.symm h, he, ih]
      cases q e.is_entering <;> simp <;> omega
    · simp only [List.map_cons, List.countP_cons, renameEvent, he, if_false, if_neg he]
      by_cases hn : e.bounded_coastline_id = new
      · simp [hn, h, Ne.symm h, ih]
        cases q e.is_entering <;> simp <;> omega
      · simp [hn, he, ih]

/-- `renameMap` does not change counts for uninvolved ids. -/
theorem countEntering_renameMap_other (m : IntersectionMap) (old new id : Nat)
    (h1 : id ≠ old) (h2 : id ≠ new) :
    countEntering (renameMap old new m) id = countEntering m id ∧
    countExiting (renameMap old new m) id = countExiting m id := by
  constructor
  · have := countP_rename_other old new id (fun b => b) h1 h2 m.all
    simpa [countEntering, IntersectionMap.all, renameMap, List.map_append] using this
  · have := countP_rename_other old new id (fun b => !b) h1 h2 m.all
    simpa [countExiting, IntersectionMap.all, renameMap, List.map_append] using this

/-- `renameMap` erases the old id. -/
theorem countEntering_renameMap_old (m : IntersectionMap) (old new : Nat) (h : old ≠ new) :
    countEntering (renameMap old new m) old = 0 ∧
    countExiting (renameMap old new m) old = 0 := by
  constructor
  · have := countP_rename_old old new (fun b => b) h m.all
    simpa [countEntering, IntersectionMap.all, renameMap, List.map_append] using this
  · have := countP_rename_old old new (fun b => !b) h m.all
    simpa [countExiting, IntersectionMap.all, renameMap, List.map_append] using this

/-- `renameMap` transfers the old id's events onto the new id. -/
theorem countEntering_renameMap_new (m : IntersectionMap) (old new : Nat) (h : old ≠ new) :
    countEntering (renameMap old new m) new = countEntering m new + countEntering m old ∧
    countExiting (renameMap old new m) new = countExiting m new + countExiting m old := by
  constructor
  · have := countP_rename_new old new (fun b => b) h m.all
    simpa [countEntering, IntersectionMap.all, renameMap, List.map_append] using this
  · have := countP_rename_new old new (fun b => !b) h m.all
    simpa [countExiting, IntersectionMap.all, renameMap, List.map_append] using this

/-- C7, amended.  For a chain that crossed the boundary and ends with a
non-empty accumulator: if the accumulator's last point equals the chain's
first point and at least one bounded coastline was already emitted, the
clipper prepends the accumulator to the first emitted coastline (dropping
the duplicated join point), renames every event carrying the current id to
the first coastline's id — so the current id disappears from the map and
the first id inherits its event counts, all other ids untouched — and
publishes one coastline for the loop rather than two; with nothing emitted
yet the source dies with an `IndexError` instead; and when the last
accumulator point differs from the chain's first point, the accumulator is
published as its own coastline under the current id. -/
theorem C7_amended (chain : Line) (st : ChainState) (fid : Nat) (fcoords : Line)
    (rest : List (Nat × Line)) (hcross : st.crossed = true) (hacc : st.acc ≠ [])
    (hfid : fid ≠ st.curId) :
    (st.acc.getLast? = chain.head? → st.emitted = (fid, fcoords) :: rest →
      finishChain chain st = Except.ok (none, (fid, st.acc ++ fcoords.tail) :: rest,
        renameMap st.curId fid st.imap) ∧
      countEntering (renameMap st.curId fid st.imap) st.curId = 0 ∧
      countExiting (renameMap st.curId fid st.imap) st.curId = 0 ∧
      countEntering (renameMap st.curId fid st.imap) fid =
        countEntering st.imap fid + countEntering st.imap st.curId ∧
      countExiting (renameMap st.curId fid st.imap) fid =
        countExiting st.imap fid + countExiting st.imap st.curId ∧
      (∀ id, id ≠ st.curId → id ≠ fid →
        countEntering (renameMap st.curId fid st.imap) id = countEntering st.imap id ∧
        countExiting (renameMap st.curId fid st.imap) id = countExiting st.imap id)) ∧
    (st.acc.getLast? = chain.head? → st.emitted = [] →
      finishChain chain st = Except.error CoastErr.MergeOnEmpty) ∧
    (st.acc.getLast? ≠ chain.head? →
      finishChain chain st = Except.ok (none, st.emitted ++ [(st.curId, st.acc)], st.imap)) := by
  have hne : st.acc.isEmpty = false := by
    cases hacc' : st.acc with
    | nil => exact absurd hacc' hacc
    | cons a as => rfl
  refine ⟨?_, ?_, ?_⟩
  · intro hlast hemit
    refine ⟨?_, (countEntering_renameMap_old st.imap st.curId fid (Ne.symm hfid)).1,
      (countEntering_renameMap_old st.imap st.curId fid (Ne.symm hfid)).2,
      (countEntering_renameMap_new st.imap st.curId fid (Ne.symm hfid)).1,
      (countEntering_renameMap_new st.imap st.curId fid (Ne.symm hfid)).2,
      ?_⟩
    · simp [finishChain, hne, hcross, hlast, hemit, exceptPure]
    · intro id h1 h2
      exact countEntering_renameMap_other st.imap st.curId fid id h1 h2
  · intro hlast hemit
    simp only [finishChain, hne, hcross, hlast, hemit]
    simp [throw, throwThe, MonadExceptOf.throw]
  · intro hlast
    simp [finishChain, hne, hcross, hlast, exceptPure]

/-- C7, witness: the amended theorem applied to the state the clipper
reaches on the closed chain `[(5,5),(5,12),(2,12),(2,5),(5,5)]` just
before the merge. -/
theorem C7_amended_witness :
    finishChain mergeChain
      { crossed := true, emitted := [(0, [(5, 5), (5, 10)])], acc := [(2, 10), (2, 5), (5, 5)], curId := 1, nextId := 2,
        imap := { top := [{ point := (5, 10), is_entering := false, side := Side.TOP, bounded_coastline_id := 0 },
                          { point := (2, 10), is_entering := true, side := Side.TOP, bounded_coastline_id := 1 }],
                  right := [], bottom := [], left := [] } } =
      Except.ok (none, [(0, [(2, 10), (2, 5), (5, 5), (5, 10)])],
        renameMap 1 0
          { top := [{ point := (5, 10), is_entering := false, side := Side.TOP, bounded_coastline_id := 0 },
                    { point := (2, 10), is_entering := true, side := Side.TOP, bounded_coastline_id := 1 }],
            right := [], bottom := [], left := [] }) :=
  ((C7_amended mergeChain
      { crossed := true, emitted := [(0, [(5, 5), (5, 10)])], acc := [(2, 10), (2, 5), (5, 5)], curId := 1, nextId := 2,
        imap := { top := [{ point := (5, 10), is_entering := false, side := Side.TOP, bounded_coastline_id := 0 },
                          { point := (2, 10), is_entering := true, side := Side.TOP, bounded_coastline_id := 1 }],
                  right := [], bottom := [], left := [] } }
      0 [(5, 5), (5, 10)] [] rfl (by decide) (by decide)).1 rfl rfl).1


/-! ### Claim C6 (amended) -/

/-- An accepted TOP candidate of a segment leaving a strictly interior `p1` is tagged exiting. -/
theorem topCandidate_exit (p1 p2 : Coord) (md : MapDimensions)
    (h : strictlyInside p1 md = true) :
    ∀ i ∈ topCandidate p1 p2 md, i.is_entering = false := by
  intro i hi
  simp only [strictlyInside, Bool.and_eq_true, decide_eq_true_eq] at h
  obtain ⟨⟨hlon1, hlon2⟩, hlat1, hlat2⟩ := h
  simp only [topCandidate] at hi
  split_ifs at hi with h1 h2 h3
  · simp only [List.mem_singleton] at hi
    subst hi
    simp only [decide_eq_false_iff_not, not_lt]
    by_contra hgt
    push_neg at hgt
    have hnum : 0 < md.max_lat - p1.2 := by linarith
    have hden : p2.2 - p1.2 < 0 := by linarith
    have := div_neg_of_pos_of_neg hnum hden
    linarith [h2.1]
  all_goals simp at hi

/-- An accepted TOP candidate of a segment reaching a strictly interior `p2` is tagged entering. -/
theorem topCandidate_enter (p1 p2 : Coord) (md : MapDimensions)
    (h : strictlyInside p2 md = true) :
    ∀ i ∈ topCandidate p1 p2 md, i.is_entering = true := by
  intro i hi
  simp only [strictlyInside, Bool.and_eq_true, decide_eq_true_eq] at h
  obtain ⟨⟨hlon1, hlon2⟩, hlat1, hlat2⟩ := h
  simp only [topCandidate] at hi
  split_ifs at hi with h1 h2 h3
  · simp only [List.mem_singleton] at hi
    subst hi
    simp only [decide_eq_true_eq]
    rcases lt_or_gt_of_ne h1 with hlt | hgt
    · exfalso
      have hden : (0:ℚ) < p2.2 - p1.2 := by linarith
      have := (div_le_one hden).mp h2.2
      linarith
    · exact hgt
  all_goals simp at hi

/-- An accepted RIGHT candidate of a segment leaving a strictly interior `p1` is tagged exiting. -/
theorem rightCandidate_exit (p1 p2 : Coord) (md : MapDimensions)
    (h : strictlyInside p1 md = true) :
    ∀ i ∈ rightCandidate p1 p2 md, i.is_entering = false := by
  intro i hi
  simp only [strictlyInside, Bool.and_eq_true, decide_eq_true_eq] at h
  obtain ⟨⟨hlon1, hlon2⟩, hlat1, hlat2⟩ := h
  simp only [rightCandidate] at hi
  split_ifs at hi with h1 h2 h3
  · simp only [List.mem_singleton] at hi
    subst hi
    simp only [decide_eq_false_iff_not, not_lt]
    by_contra hgt
    push_neg at hgt
    have hnum : 0 < md.max_lon - p1.1 := by linarith
    have hden : p2.1 - p1.1 < 0 := by linarith
    have := div_neg_of_pos_of_neg hnum hden
    linarith [h2.1]
  all_goals simp at hi

/-- An accepted RIGHT candidate of a segment reaching a strictly interior `p2` is tagged entering. -/
theorem rightCandidate_enter (p1 p2 : Coord) (md : MapDimensions)
    (h : strictlyInside p2 md = true) :
    ∀ i ∈ rightCandidate p1 p2 md, i.is_entering = true := by
  intro i hi
  simp only [strictlyInside, Bool.and_eq_true, decide_eq_true_eq] at h
  obtain ⟨⟨hlon1, hlon2⟩, hlat1, hlat2⟩ := h
  simp only [rightCandidate] at hi
  split_ifs at hi with h1 h2 h3
  · simp only [List.mem_singleton] at hi
    subst hi
    simp only [decide_eq_true_eq]
    rcases lt_or_gt_of_ne h1 with hlt | hgt
    · exfalso
      have hden : (0:ℚ) < p2.1 - p1.1 := by linarith
      have := (div_le_one hden).mp h2.2
      linarith
    · exact hgt
  all_goals simp at hi

/-- An accepted BOTTOM candidate of a segment leaving a strictly interior `p1` is tagged exiting. -/
theorem bottomCandidate_exit (p1 p2 : Coord) (md : MapDimensions)
    (h : strictlyInside p1 md = true) :
    ∀ i ∈ bottomCandidate p1 p2 md, i.is_entering = false := by
  intro i hi
  simp only [strictlyInside, Bool.and_eq_true, decide_eq_true_eq] at h
  obtain ⟨⟨hlon1, hlon2⟩, hlat1, hlat2⟩ := h
  simp only [bottomCandidate] at hi
  split_ifs at hi with h1 h2 h3
  · simp only [List.mem_singleton] at hi
    subst hi
    simp only [decide_eq_false_iff_not, not_lt]
    by_contra hlt
    push_neg at hlt
    have hnum : md.min_lat - p1.2 < 0 := by linarith
    have hden : (0:ℚ) < p2.2 - p1.2 := by linarith
    have := div_neg_of_neg_of_pos hnum hden
    linarith [h2.1]
  all_goals simp at hi

/-- An accepted BOTTOM candidate of a segment reaching a strictly interior `p2` is tagged entering. -/
theorem bottomCandidate_enter (p1 p2 : Coord) (md : MapDimensions)
    (h : strictlyInside p2 md = true) :
    ∀ i ∈ bottomCandidate p1 p2 md, i.is_entering = true := by
  intro i hi
  simp only [strictlyInside, Bool.and_eq_true, decide_eq_true_eq] at h
  obtain ⟨⟨hlon1, hlon2⟩, hlat1, hlat2⟩ := h
  simp only [bottomCandidate] at hi
  split_ifs at hi with h1 h2 h3
  · simp only [List.mem_singleton] at hi
    subst hi
    simp only [decide_eq_true_eq]
    rcases lt_or_gt_of_ne h1 with hlt | hgt
    · exact hlt
    · exfalso
      have hden : p2.2 - p1.2 < 0 := by linarith
      have hmul := mul_le_mul_of_nonpos_right h2.2 (le_of_lt hden)
      rw [one_mul, div_mul_cancel₀ _ (ne_of_lt hden)] at hmul
      linarith
  all_goals simp at hi

/-- An accepted LEFT candidate of a segment leaving a strictly interior `p1` is tagged exiting. -/
theorem leftCandidate_exit (p1 p2 : Coord) (md : MapDimensions)
    (h : strictlyInside p1 md = true) :
    ∀ i ∈ leftCandidate p1 p2 md, i.is_entering = false := by
  intro i hi
  simp only [strictlyInside, Bool.and_eq_true, decide_eq_true_eq] at h
  obtain ⟨⟨hlon1, hlon2⟩, hlat1, hlat2⟩ := h
  simp only [leftCandidate] at hi
  split_ifs at hi with h1 h2 h3
  · simp only [List.mem_singleton] at hi
    subst hi
    simp only [decide_eq_false_iff_not, not_lt]
    by_contra hlt
    push_neg at hlt
    have hnum : md.min_lon - p1.1 < 0 := by linarith
    have hden : (0:ℚ) < p2.1 - p1.1 := by linarith
    have := div_neg_of_neg_of_pos hnum hden
    linarith [h2.1]
  all_goals simp at hi

/-- An accepted LEFT candidate of a segment reaching a strictly interior `p2` is tagged entering. -/
theorem leftCandidate_enter (p1 p2 : Coord) (md : MapDimensions)
    (h : strictlyInside p2 md = true) :
    ∀ i ∈ leftCandidate p1 p2 md, i.is_entering = true := by
  intro i hi
  simp only [strictlyInside, Bool.and_eq_true, decide_eq_true_eq] at h
  obtain ⟨⟨hlon1, hlon2⟩, hlat1, hlat2⟩ := h
  simp only [leftCandidate] at hi
  split_ifs at hi with h1 h2 h3
  · simp only [List.mem_singleton] at hi
    subst hi
    simp only [decide_eq_true_eq]
    rcases lt_or_gt_of_ne h1 with hlt | hgt
    · exact hlt
    · exfalso
      have hden : p2.1 - p1.1 < 0 := by linarith
      have hmul := mul_le_mul_of_nonpos_right h2.2 (le_of_lt hden)
      rw [one_mul, div_mul_cancel₀ _ (ne_of_lt hden)] at hmul
      linarith
  all_goals simp at hi

/-- Every candidate of a segment leaving a strictly interior `p1` is tagged exiting. -/
theorem candidates_exit (p1 p2 : Coord) (md : MapDimensions)
    (h : strictlyInside p1 md = true) :
    ∀ i ∈ boundaryCandidates p1 p2 md, i.is_entering = false := by
  intro i hi
  simp only [boundaryCandidates, List.mem_append] at hi
  rcases hi with ((hi | hi) | hi) | hi
  · exact topCandidate_exit p1 p2 md h i hi
  · exact rightCandidate_exit p1 p2 md h i hi
  · exact bottomCandidate_exit p1 p2 md h i hi
  · exact leftCandidate_exit p1 p2 md h i hi

/-- Every candidate of a segment reaching a strictly interior `p2` is tagged entering. -/
theorem candidates_enter (p1 p2 : Coord) (md : MapDimensions)
    (h : strictlyInside p2 md = true) :
    ∀ i ∈ boundaryCandidates p1 p2 md, i.is_entering = true := by
  intro i hi
  simp only [boundaryCandidates, List.mem_append] at hi
  rcases hi with ((hi | hi) | hi) | hi
  · exact topCandidate_enter p1 p2 md h i hi
  · exact rightCandidate_enter p1 p2 md h i hi
  · exact bottomCandidate_enter p1 p2 md h i hi
  · exact leftCandidate_enter p1 p2 md h i hi

/-- The selected candidate is one of the candidates. -/
theorem pickFirstMin_mem (p1 : Coord) (l : List Intersection) (r : Intersection)
    (h : pickFirstMin p1 l = some r) : r ∈ l := by
  obtain ⟨l₁, l₂, hsplit, -, -⟩ := pickFirstMin_split p1 l r h
  rw [hsplit]
  exact List.mem_append.mpr (Or.inr (List.mem_cons_self r l₂))

/-- Appending an event changes the entering count of exactly its own id, by one when it is entering. -/
theorem countEntering_push (m : IntersectionMap) (s : Side) (e : IntersectionWithId) (id : Nat) :
    countEntering (m.push s e) id =
      countEntering m id +
        (if e.bounded_coastline_id = id ∧ e.is_entering = true then 1 else 0) := by
  cases s <;>
    simp only [countEntering, IntersectionMap.push, IntersectionMap.set, IntersectionMap.get,
      IntersectionMap.all, List.countP_append, List.countP_cons, List.countP_nil] <;>
    by_cases h1 : e.bounded_coastline_id = id <;> cases h2 : e.is_entering <;>
      simp [h1, h2] <;> omega

/-- Appending an event changes the exiting count of exactly its own id, by one when it is exiting. -/
theorem countExiting_push (m : IntersectionMap) (s : Side) (e : IntersectionWithId) (id : Nat) :
    countExiting (m.push s e) id =
      countExiting m id +
        (if e.bounded_coastline_id = id ∧ e.is_entering = false then 1 else 0) := by
  cases s <;>
    simp only [countExiting, IntersectionMap.push, IntersectionMap.set, IntersectionMap.get,
      IntersectionMap.all, List.countP_append, List.countP_cons, List.countP_nil] <;>
    by_cases h1 : e.bounded_coastline_id = id <;> cases h2 : e.is_entering <;>
      simp [h1, h2] <;> omega

/-- Sorting the per-side lists permutes them, so all per-id event counts are preserved. -/
theorem countEntering_sort (m : IntersectionMap) (id : Nat) :
    countEntering (sortIntersectionMap m) id = countEntering m id ∧
    countExiting (sortIntersectionMap m) id = countExiting m id := by
  have hperm : (sortIntersectionMap m).all.Perm m.all := by
    unfold sortIntersectionMap IntersectionMap.all
    exact (((List.perm_insertionSort _ m.top).append
      (List.perm_insertionSort _ m.right)).append
        (List.perm_insertionSort _ m.bottom)).append
          (List.perm_insertionSort _ m.left)
  exact ⟨hperm.countP_eq _, hperm.countP_eq _⟩

theorem countEntering_empty (id : Nat) :
    countEntering emptyIntersectionMap id = 0 ∧ countExiting emptyIntersectionMap id = 0 :=
  ⟨rfl, rfl⟩

/-- The invariant holds for the fresh per-chain state on an empty global map. -/
theorem C6Inv_init (md : MapDimensions) (p1 : Coord) (n : Nat) :
    C6Inv md (is_inside_map p1 md) p1 (initChainState n emptyIntersectionMap) := by
  refine ⟨?_, ?_, ?_, ?_, ?_, ?_, ?_, ?_, ?_⟩ <;>
    simp [initChainState, countEntering, countExiting, IntersectionMap.all,
      emptyIntersectionMap]

/-- One segment step preserves the clipper loop invariant, provided both endpoints avoid the boundary lines. -/
theorem clipSeg_inv (md : MapDimensions) (startIn : Bool) (p1 p2 : Coord) (st st' : ChainState)
    (hGP1 : is_inside_map p1 md = true → strictlyInside p1 md = true)
    (hGP2 : is_inside_map p2 md = true → strictlyInside p2 md = true)
    (hInv : C6Inv md startIn p1 st)
    (hstep : clipSeg md st p1 p2 = Except.ok st') :
    C6Inv md startIn p2 st' := by
  obtain ⟨F1, F2, F3, A1, A2a, A2b, C1, C2, E⟩ := hInv
  cases hb1 : is_inside_map p1 md <;> cases hb2 : is_inside_map p2 md
  · -- both outside
    have hc : find_segment_intersection_with_boundary p1 p2 md = Except.ok SegClass.outside := by
      simp [find_segment_intersection_with_boundary, hb1, hb2]
    cases hacc : st.acc with
    | nil =>
      have hval : clipSeg md st p1 p2 = Except.ok st := by
        simp [clipSeg, hc, exceptBind_ok, hacc, exceptPure]
      rw [hval] at hstep
      injection hstep with h
      subst h
      refine ⟨F1, F2, F3, ?_, ?_, ?_, C1, ?_, E⟩
      · intro h
        exact absurd hacc h
      · intro _ _
        exact hb2
      · intro h1 h2
        obtain ⟨hcr, hprev⟩ := A2b h1 h2
        refine ⟨hcr, ?_⟩
        rw [hb2, ← hprev, hb1]
      · intro h
        exact absurd hacc h
    | cons a as =>
      have hval : clipSeg md st p1 p2 = Except.error CoastErr.AccumulatorOutside := by
        simp [clipSeg, hc, exceptBind_ok, hacc, throw, throwThe, MonadExceptOf.throw]
      rw [hval] at hstep
      exact absurd hstep (by simp)
  · -- p1 outside, p2 inside: entering crossing
    have hacc : st.acc = [] := by
      cases haccc : st.acc with
      | nil => rfl
      | cons a as =>
        have := (A1 (by simp [haccc])).1
        rw [hb1] at this
        exact absurd this (by simp)
    cases hpick : pickFirstMin p1 (boundaryCandidates p1 p2 md) with
    | none =>
      have hval : clipSeg md st p1 p2 = Except.error CoastErr.MalformedGeometry := by
        simp [clipSeg, find_segment_intersection_with_boundary, hb1, hb2, hpick, exceptBind_error]
      rw [hval] at hstep
      exact absurd hstep (by simp)
    | some i =>
      have htag : i.is_entering = true :=
        candidates_enter p1 p2 md (hGP2 hb2) i (pickFirstMin_mem p1 _ i hpick)
      have hval : clipSeg md st p1 p2 = Except.ok (enterState st i p2) := by
        simp [clipSeg, find_segment_intersection_with_boundary, hb1, hb2, hpick,
          exceptBind_ok, htag, exceptPure, enterState]
      rw [hval] at hstep
      injection hstep with h
      subst h
      have hnem : ¬(startIn ∧ st.emitted = []) := by
        rintro ⟨hs, hem⟩
        have := (A2b hacc hem).2
        rw [hb1] at this
        rw [← this] at hs
        exact absurd hs (by simp)
      unfold C6Inv enterState
      dsimp only
      refine ⟨F1, F2, ?_, ?_, ?_, ?_, ?_, ?_, ?_⟩
      · intro id hid
        rw [countEntering_push, countExiting_push]
        dsimp only
        rw [if_neg (fun hc => absurd hc.1 (by omega)), if_neg (fun hc => absurd hc.1 (by omega))]
        simpa using F3 id hid
      · intro _
        refine ⟨hb2, by simp⟩
      · intro h
        simp at h
      · intro h
        simp at h
      · intro h
        simp at h
      · intro _
        constructor
        · rw [countExiting_push]
          dsimp only
          rw [htag]
          rw [if_neg (by simp), Nat.add_zero]
          exact (C1 hacc).2
        · rw [countEntering_push]
          dsimp only
          rw [htag]
          rw [if_pos ⟨rfl, rfl⟩]
          rw [(C1 hacc).1, if_neg hnem]
      · cases hem : st.emitted with
        | nil => trivial
        | cons q rest =>
          obtain ⟨id0, f⟩ := q
          rw [hem] at E F1
          dsimp only at E ⊢
          obtain ⟨E1, E2, E3⟩ := E
          have hid0 : id0 < st.curId := F1 (id0, f) (by simp)
          refine ⟨?_, ?_, ?_⟩
          · rw [countEntering_push]
            dsimp only
            rw [if_neg (fun hc => absurd hc.1 (by omega)), Nat.add_zero]
            exact E1
          · rw [countExiting_push]
            dsimp only
            rw [if_neg (fun hc => absurd hc.1 (by omega)), Nat.add_zero]
            exact E2
          · intro p hp
            have hplt : p.1 < st.curId := F1 p (by simp [hp])
            obtain ⟨e1, e2, e3⟩ := E3 p hp
            refine ⟨e1, ?_, ?_⟩
            · rw [countEntering_push]
              dsimp only
              rw [if_neg (fun hc => absurd hc.1 (by omega)), Nat.add_zero]
              exact e2
            · rw [countExiting_push]
              dsimp only
              rw [if_neg (fun hc => absurd hc.1 (by omega)), Nat.add_zero]
              exact e3
  · -- p1 inside, p2 outside: exiting crossing
    cases hpick : pickFirstMin p1 (boundaryCandidates p1 p2 md) with
    | none =>
      have hval : clipSeg md st p1 p2 = Except.error CoastErr.MalformedGeometry := by
        simp [clipSeg, find_segment_intersection_with_boundary, hb1, hb2, hpick, exceptBind_error]
      rw [hval] at hstep
      exact absurd hstep (by simp)
    | some i =>
      have htag : i.is_entering = false :=
        candidates_exit p1 p2 md (hGP1 hb1) i (pickFirstMin_mem p1 _ i hpick)
      have hval : clipSeg md st p1 p2 = Except.ok (exitState st i p1) := by
        simp [clipSeg, find_segment_intersection_with_boundary, hb1, hb2, hpick,
          exceptBind_ok, htag, exceptPure, exitState]
      rw [hval] at hstep
      injection hstep with h
      subst h
      unfold C6Inv exitState
      dsimp only
      refine ⟨?_, by omega, ?_, ?_, ?_, ?_, ?_, ?_, ?_⟩
      · intro p hp
        rcases List.mem_append.mp hp with hp | hp
        · exact lt_trans (F1 p hp) F2
        · simp only [List.mem_singleton] at hp
          subst hp
          exact F2
      · intro id hid
        rw [countEntering_push, countExiting_push]
        dsimp only
        rw [if_neg (fun hc => absurd hc.1 (by omega)), if_neg (fun hc => absurd hc.1 (by omega))]
        exact ⟨by rw [Nat.add_zero]; exact (F3 id (by omega)).1,
               by rw [Nat.add_zero]; exact (F3 id (by omega)).2⟩
      · intro h
        exact absurd rfl h
      · intro _ _
        exact hb2
      · intro _ hem
        simp at hem
      · intro _
        rw [countEntering_push, countExiting_push]
        dsimp only
        rw [if_neg (fun hc => absurd hc.1 (by omega)), if_neg (fun hc => absurd hc.1 (by omega))]
        exact ⟨by rw [Nat.add_zero]; exact (F3 st.nextId le_rfl).1,
               by rw [Nat.add_zero]; exact (F3 st.nextId le_rfl).2⟩
      · intro h
        exact absurd rfl h
      · cases hem : st.emitted with
        | nil =>
          simp only [List.nil_append]
          have hE : countEntering st.imap st.curId = (if startIn then 0 else 1) := by
            cases hacc : st.acc with
            | nil =>
              have hstart : startIn = true := by
                rw [← (A2b hacc hem).2, hb1]
              rw [hstart, (C1 hacc).1]
              simp
            | cons a as =>
              have := (C2 (by simp [hacc])).2
              rw [hem] at this
              simpa using this
          have hX : countExiting st.imap st.curId = 0 := by
            cases hacc : st.acc with
            | nil => exact (C1 hacc).2
            | cons a as => exact (C2 (by simp [hacc])).1
          refine ⟨?_, ?_, ?_⟩
          · rw [countEntering_push]
            dsimp only
            rw [htag]
            rw [if_neg (by simp), Nat.add_zero]
            exact hE
          · rw [countExiting_push]
            dsimp only
            rw [htag]
            rw [if_pos ⟨rfl, rfl⟩, hX]
          · intro p hp
            simp at hp
        | cons q rest =>
          obtain ⟨id0, f⟩ := q
          rw [hem] at E F1 A2a
          dsimp only at E ⊢
          obtain ⟨E1, E2, E3⟩ := E
          have hid0 : id0 < st.curId := F1 (id0, f) (by simp)
          have hacc : st.acc ≠ [] := by
            intro haccnil
            have := A2a haccnil (by simp)
            rw [hb1] at this
            exact absurd this (by simp)
          refine ⟨?_, ?_, ?_⟩
          · rw [countEntering_push]
            dsimp only
            rw [if_neg (fun hc => absurd hc.1 (by omega)), Nat.add_zero]
            exact E1
          · rw [countExiting_push]
            dsimp only
            rw [if_neg (fun hc => absurd hc.1 (by omega)), Nat.add_zero]
            exact E2
          · intro p hp
            rcases List.mem_append.mp hp with hp | hp
            · have hplt : p.1 < st.curId := F1 p (by simp [hp])
              obtain ⟨e1, e2, e3⟩ := E3 p hp
              refine ⟨e1, ?_, ?_⟩
              · rw [countEntering_push]
                dsimp only
                rw [if_neg (fun hc => absurd hc.1 (by omega)), Nat.add_zero]
                exact e2
              · rw [countExiting_push]
                dsimp only
                rw [if_neg (fun hc => absurd hc.1 (by omega)), Nat.add_zero]
                exact e3
            · simp only [List.mem_singleton] at hp
              subst hp
              dsimp only
              refine ⟨hid0, ?_, ?_⟩
              · rw [countEntering_push]
                dsimp only
                rw [htag]
                rw [if_neg (fun hc => absurd hc.2 (by simp)), Nat.add_zero]
                have := (C2 hacc).2
                rwa [hem, if_neg (by simp)] at this
              · rw [countExiting_push]
                dsimp only
                rw [htag]
                rw [if_pos ⟨rfl, rfl⟩, (C2 hacc).1]
  · -- both inside
    have hc : find_segment_intersection_with_boundary p1 p2 md = Except.ok SegClass.inside := by
      simp [find_segment_intersection_with_boundary, hb1, hb2]
    cases hacc : st.acc with
    | nil =>
      have hem : st.emitted = [] := by
        cases hemc : st.emitted with
        | nil => rfl
        | cons q qs =>
          have := A2a hacc (by simp [hemc])
          rw [hb1] at this
          exact absurd this (by simp)
      obtain ⟨hcr, hstart⟩ := A2b hacc hem
      have hstartT : startIn = true := by rw [← hstart, hb1]
      have hval : clipSeg md st p1 p2 = Except.ok { st with acc := [p1, p2] } := by
        simp [clipSeg, hc, exceptBind_ok, hacc, exceptPure]
      rw [hval] at hstep
      injection hstep with h
      subst h
      refine ⟨F1, F2, F3, ?_, ?_, ?_, ?_, ?_, ?_⟩
      · intro _
        exact ⟨hb2, by simp⟩
      · intro h
        simp at h
      · intro h
        simp at h
      · intro h
        simp at h
      · intro _
        dsimp only
        rw [hem, hstartT]
        simp [C1 hacc]
      · dsimp only
        rw [hem]
        trivial
    | cons a as =>
      have hval : clipSeg md st p1 p2 = Except.ok { st with acc := st.acc ++ [p2] } := by
        simp [clipSeg, hc, exceptBind_ok, hacc, exceptPure]
      rw [hval] at hstep
      injection hstep with h
      subst h
      refine ⟨F1, F2, F3, ?_, ?_, ?_, ?_, ?_, E⟩
      · intro _
        refine ⟨hb2, ?_⟩
        dsimp only
        rw [List.getLast?_concat]
      · intro h
        dsimp only at h
        rw [hacc] at h
        simp at h
      · intro h
        dsimp only at h
        rw [hacc] at h
        simp at h
      · intro h
        dsimp only at h
        rw [hacc] at h
        simp at h
      · intro _
        exact C2 (by simp [hacc])

/-- The segment loop carries the invariant from the first to the last vertex of the chain. -/
theorem clipSegs_inv (md : MapDimensions) (startIn : Bool) :
    ∀ (ps : List Coord) (p1 : Coord) (st stF : ChainState),
      (∀ p ∈ p1 :: ps, is_inside_map p md = true → strictlyInside p md = true) →
      C6Inv md startIn p1 st →
      clipSegs md st (p1 :: ps) = Except.ok stF →
      C6Inv md startIn ((p1 :: ps).getLast (by simp)) stF := by
  intro ps
  induction ps with
  | nil =>
    intro p1 st stF _ hInv hrun
    simp only [clipSegs] at hrun
    injection hrun with h
    subst h
    simpa using hInv
  | cons p2 ps ih =>
    intro p1 st stF hGP hInv hrun
    simp only [clipSegs] at hrun
    cases hs : clipSeg md st p1 p2 with
    | error e =>
      rw [hs, exceptBind_error] at hrun
      exact absurd hrun (by simp)
    | ok st' =>
      rw [hs, exceptBind_ok] at hrun
      have hInv' : C6Inv md startIn p2 st' :=
        clipSeg_inv md startIn p1 p2 st st' (hGP p1 (by simp)) (hGP p2 (by simp)) hInv hs
      have hGP' : ∀ p ∈ p2 :: ps, is_inside_map p md = true → strictlyInside p md = true :=
        fun p hp => hGP p (List.mem_cons_of_mem p1 hp)
      have := ih p2 st' stF hGP' hInv' hrun
      simpa [List.getLast_cons] using this

/-- C6, amended.  For every chain all of whose vertices avoid the four
boundary lines (each vertex that is inside the rectangle is strictly
inside), and that either starts and ends outside or is closed, a
successful run of the clipper on that single chain over an empty global
map publishes only bounded-coastline ids carrying exactly one entering
and exactly one exiting event in the resulting sorted intersection map
(after the merge step's event rewriting). -/
theorem C6_amended (md : MapDimensions) (chain : Line) (n : Nat)
    (res : List Line × List (Nat × Line) × IntersectionMap × Nat)
    (hGP : ∀ p ∈ chain, is_inside_map p md = true → strictlyInside p md = true)
    (hends : ((∀ p, chain.head? = some p → is_inside_map p md = false) ∧
              (∀ p, chain.getLast? = some p → is_inside_map p md = false)) ∨
             chain.head? = chain.getLast?)
    (hrun : bound_and_sort_complete_coastlines emptyIntersectionMap [chain] md n =
      Except.ok res) :
    ∀ q ∈ res.2.1, countEntering res.2.2.1 q.1 = 1 ∧ countExiting res.2.2.1 q.1 = 1 := by
  cases hcc : clipChains md [] [] emptyIntersectionMap n [chain] with
  | error e =>
    simp only [bound_and_sort_complete_coastlines] at hrun
    rw [hcc, exceptBind_error] at hrun
    exact absurd hrun (by simp)
  | ok r =>
    obtain ⟨c, o, m, g⟩ := r
    simp only [bound_and_sort_complete_coastlines] at hrun
    rw [hcc, exceptBind_ok] at hrun
    dsimp only at hrun
    cases hv : validate_intersection_map (sortIntersectionMap m) with
    | error e =>
      rw [hv, exceptBind_error] at hrun
      exact absurd hrun (by simp)
    | ok b =>
      rw [hv, exceptBind_ok] at hrun
      rw [exceptPure] at hrun
      injection hrun with h
      subst h
      dsimp only
      have hred : ∀ q ∈ o, countEntering m q.1 = 1 ∧ countExiting m q.1 = 1 → 
          countEntering (sortIntersectionMap m) q.1 = 1 ∧
          countExiting (sortIntersectionMap m) q.1 = 1 := by
        intro q _ hq
        rw [(countEntering_sort m q.1).1, (countEntering_sort m q.1).2]
        exact hq
      suffices hs : ∀ q ∈ o, countEntering m q.1 = 1 ∧ countExiting m q.1 = 1 by
        intro q hq
        exact hred q hq (hs q hq)
      -- reduce clipChains to clipChain
      cases hc1 : clipChain md [] [] emptyIntersectionMap n chain with
      | error e =>
        simp only [clipChains] at hcc
        rw [hc1, exceptBind_error] at hcc
        exact absurd hcc (by simp)
      | ok r1 =>
        obtain ⟨c1, o1, m1, g1⟩ := r1
        simp only [clipChains] at hcc
        rw [hc1, exceptBind_ok] at hcc
        dsimp only at hcc
        injection hcc with h
        injection h with h1 h
        injection h with h2 h
        injection h with h3 h4
        subst h1; subst h2; subst h3; subst h4
        -- clipChain analysis
        by_cases hlen : chain.length < 2
        · simp only [clipChain] at hc1
          rw [if_pos hlen, exceptPure] at hc1
          injection hc1 with h
          injection h with h1 h
          injection h with h2 h
          subst h2
          intro q hq
          simp at hq
        · cases chain with
          | nil => exact absurd (by simp) hlen
          | cons p1 ps =>
            simp only [clipChain] at hc1
            rw [if_neg hlen] at hc1
            cases hsegs : clipSegs md (initChainState n emptyIntersectionMap) (p1 :: ps) with
            | error e =>
              rw [hsegs, exceptBind_error] at hc1
              exact absurd hc1 (by simp)
            | ok st =>
              rw [hsegs, exceptBind_ok] at hc1
              have hFin := clipSegs_inv md (is_inside_map p1 md) ps p1
                (initChainState n emptyIntersectionMap) st hGP
                (C6Inv_init md p1 n) hsegs
              obtain ⟨F1, F2, F3, A1, A2a, A2b, C1, C2, E⟩ := hFin
              have hlast? : (p1 :: ps).getLast? = some ((p1 :: ps).getLast (by simp)) :=
                List.getLast?_eq_getLast _ _
              cases hacc : st.acc with
              | nil =>
                have hfcv : finishChain (p1 :: ps) st =
                    Except.ok (none, st.emitted, st.imap) := by
                  simp [finishChain, hacc, exceptPure]
                rw [hfcv, exceptBind_ok] at hc1
                dsimp only at hc1
                rw [exceptPure] at hc1
                injection hc1 with h
                injection h with h1 h
                injection h with h2 h
                injection h with h3 h4
                subst h2; subst h3
                cases hem : st.emitted with
                | nil =>
                  intro q hq
                  simp at hq
                | cons q0 rest =>
                  obtain ⟨id0, f⟩ := q0
                  have hout : is_inside_map ((p1 :: ps).getLast (by simp)) md = false :=
                    A2a hacc (by simp [hem])
                  have hstart : is_inside_map p1 md = false := by
                    rcases hends with ⟨hh, _⟩ | hcl
                    · exact hh p1 rfl
                    · rw [hlast?] at hcl
                      injection hcl with h
                      rw [h]
                      exact hout
                  rw [hem] at E F1
                  dsimp only at E
                  rw [hstart] at E
                  simp only [Bool.false_eq_true, if_false] at E
                  obtain ⟨E1, E2, E3⟩ := E
                  intro q hq
                  simp only [List.nil_append] at hq
                  rcases List.mem_cons.mp hq with rfl | hq
                  · exact ⟨E1, E2⟩
                  · obtain ⟨-, e2, e3⟩ := E3 q hq
                    exact ⟨e2, e3⟩
              | cons a as =>
                have hacc_ne : st.acc ≠ [] := by simp [hacc]
                have hne : st.acc.isEmpty = false := by rw [hacc]; rfl
                obtain ⟨hinside, hlastacc⟩ := A1 hacc_ne
                cases hcr : st.crossed with
                | false =>
                  cases hem : st.emitted with
                  | nil =>
                    have hfcv : finishChain (p1 :: ps) st =
                        Except.ok (some st.acc, st.emitted, st.imap) := by
                      simp only [finishChain, hne, hcr, hem]
                      simp [exceptPure]
                    rw [hfcv, exceptBind_ok] at hc1
                    dsimp only at hc1
                    rw [exceptPure] at hc1
                    injection hc1 with h
                    injection h with h1 h
                    injection h with h2 h
                    subst h2
                    intro q hq
                    rw [hem] at hq
                    simp at hq
                  | cons q0 rest =>
                    have hfcv : finishChain (p1 :: ps) st =
                        Except.error CoastErr.ClosedButBounded := by
                      simp only [finishChain, hne, hcr, hem]
                      simp [throw, throwThe, MonadExceptOf.throw]
                    rw [hfcv, exceptBind_error] at hc1
                    exact absurd hc1 (by simp)
                | true =>
                  have hmerge : st.acc.getLast? = (p1 :: ps).head? := by
                    rcases hends with ⟨-, hl⟩ | hcl
                    · exact absurd hinside (by simp [hl _ hlast?])
                    · rw [hlastacc, hcl, hlast?]
                  cases hem : st.emitted with
                  | nil =>
                    have hfcv : finishChain (p1 :: ps) st =
                        Except.error CoastErr.MergeOnEmpty := by
                      simp only [finishChain, hne, hcr, hmerge, hem]
                      simp [throw, throwThe, MonadExceptOf.throw]
                    rw [hfcv, exceptBind_error] at hc1
                    exact absurd hc1 (by simp)
                  | cons q0 rest =>
                    obtain ⟨id0, f⟩ := q0
                    have hfcv : finishChain (p1 :: ps) st =
                        Except.ok (none, (id0, st.acc ++ f.tail) :: rest,
                          renameMap st.curId id0 st.imap) := by
                      simp only [finishChain, hne, hcr, hmerge, hem]
                      simp [exceptPure]
                    rw [hfcv, exceptBind_ok] at hc1
                    dsimp only at hc1
                    rw [exceptPure] at hc1
                    injection hc1 with h
                    injection h with h1 h
                    injection h with h2 h
                    injection h with h3 h4
                    subst h2; subst h3
                    have hstartT : is_inside_map p1 md = true := by
                      have hh : (p1 :: ps).head? = some ((p1 :: ps).getLast (by simp)) := by
                        rw [← hmerge, hlastacc]
                      injection hh with h
                      rw [h]
                      exact hinside
                    rw [hem] at E F1
                    dsimp only at E
                    obtain ⟨E1, E2, E3⟩ := E
                    have hid0 : id0 < st.curId := F1 (id0, f) (by simp)
                    have hne : st.curId ≠ id0 := by omega
                    have hcurE : countEntering st.imap st.curId = 1 := by
                      have := (C2 hacc_ne).2
                      rw [hem] at this
                      rwa [if_neg (by simp)] at this
                    have hcurX : countExiting st.imap st.curId = 0 := (C2 hacc_ne).1
                    intro q hq
                    rcases List.mem_cons.mp hq with rfl | hq
                    · dsimp only
                      constructor
                      · rw [(countEntering_renameMap_new st.imap st.curId id0 hne).1]
                        rw [E1, hstartT, hcurE]
                        simp
                      · rw [(countEntering_renameMap_new st.imap st.curId id0 hne).2]
                        rw [E2, hcurX]
                    · obtain ⟨hgt, e2, e3⟩ := E3 q hq
                      have h1 : q.1 ≠ st.curId := by
                        have := F1 q (by simp [hq])
                        omega
                      have h2 : q.1 ≠ id0 := by omega
                      constructor
                      · rw [(countEntering_renameMap_other st.imap st.curId id0 q.1 h1 h2).1]
                        exact e2
                      · rw [(countEntering_renameMap_other st.imap st.curId id0 q.1 h1 h2).2]
                        exact e3

/-- C6, witness: the amended theorem applied to the closed chain
`[(5,5),(5,12),(2,12),(2,5),(5,5)]`, whose single published id 0 carries
one entering event at (2,10) and one exiting event at (5,10). -/
theorem C6_amended_witness :
    countEntering c6resMap 0 = 1 ∧ countExiting c6resMap 0 = 1 :=
  C6_amended md0 mergeChain 0
    ([], [(0, [(2, 10), (2, 5), (5, 5), (5, 10)])], c6resMap, 2)
    (by decide) (Or.inr rfl) rfl
    (0, [(2, 10), (2, 5), (5, 5), (5, 10)]) (by simp)

end PdfMap
